import Mathlib

set_option maxRecDepth 8000

/-!
Verification development for a PuLP-based Sudoku solver
(`sudoku_solver.py`).  The Python program is shallowly embedded: cells
are integers or single-character strings, the ILP backend is an
explicit function from problems to a status and a binary assignment,
and every fallible Python function returns `Except PyError`.
-/

instance {ε α : Type} [DecidableEq ε] [DecidableEq α] : DecidableEq (Except ε α)
  | .ok a, .ok b => if h : a = b then .isTrue (by rw [h]) else .isFalse (by simp [h])
  | .ok _, .error _ => .isFalse (by simp)
  | .error _, .ok _ => .isFalse (by simp)
  | .error a, .error b => if h : a = b then .isTrue (by rw [h]) else .isFalse (by simp [h])

/-- A Python cell value as it appears in a grid: either an integer or a
single-character string (letters encode values above 9). -/
inductive Cell where
  | int (n : Int)
  | chr (c : Char)
deriving DecidableEq, Repr

/-- The Python exception kinds raised by the program.  The source only
ever raises `ValueError` inside validation and parsing, `KeyError` can
arise from indexing the variable dictionary, `IndexError` from indexing
an empty grid, and a generic `Exception` signals a non-optimal solver
status. -/
inductive PyError where
  | valueError (msg : String)
  | keyError (msg : String)
  | indexError (msg : String)
  | exception (msg : String)
deriving DecidableEq, Repr

/-- Embedding of `convert_to_numeric` (lines 5-8): alphabetic strings map
via `ord(value.upper()) - 55`, everything else goes through Python
`int(...)`, which succeeds on integers and digit characters and raises
`ValueError` otherwise. -/
def convert_to_numeric : Cell → Except PyError Int
  | .int n => .ok n
  | .chr c =>
    if c.isAlpha then .ok ((c.toUpper.toNat : Int) - 55)
    else if c.isDigit then .ok ((c.toNat : Int) - 48)
    else .error (.valueError "invalid literal for int with base 10")

/-- The cell of a grid at a row and column, with Python-style indexing
(after validation all indices used are in range). -/
def cellAt (g : List (List Cell)) (r c : Nat) : Cell :=
  (g.getD r []).getD c (Cell.int 0)

/-- The rectangularity loop of `validate_sudoku_input` (lines 16-19):
every row must have the length of the first row. -/
def checkRectangular (n_cols : Nat) : Nat → List (List Cell) → Except PyError Unit
  | _, [] => .ok ()
  | idx, row :: rest =>
    if row.length ≠ n_cols then
      .error (.valueError s!"Row {idx + 1} has a different length than the first row. The grid is not rectangular.")
    else checkRectangular n_cols (idx + 1) rest

/-- The row-major traversal order of the value-checking loop of
`validate_sudoku_input` (lines 32-38). -/
def rowMajorPairs (n : Nat) : List (Nat × Nat) :=
  (List.range n).flatMap (fun r => (List.range n).map (fun c => (r, c)))

/-- The value-range loop of `validate_sudoku_input` (lines 32-38): each
cell is decoded with `convert_to_numeric` (whose `ValueError` would
propagate) and must satisfy `0 <= value <= n_rows`, both ends
inclusive. -/
def checkValues (g : List (List Cell)) (n_rows : Nat) : List (Nat × Nat) → Except PyError Unit
  | [] => .ok ()
  | (r, c) :: rest =>
    match convert_to_numeric (cellAt g r c) with
    | .error e => .error e
    | .ok v =>
      if 0 ≤ v ∧ v ≤ (n_rows : Int) then checkValues g n_rows rest
      else .error (.valueError s!"Invalid value at position ({r + 1}, {c + 1}). Values must be between 1 and {n_rows}, or 0 for empty cells.")

/-- Largest `m` at most the second argument with `m * m ≤ n`. -/
def floorSqrtAux (n : Nat) : Nat → Nat
  | 0 => 0
  | k + 1 => if (k + 1) * (k + 1) ≤ n then k + 1 else floorSqrtAux n k

/-- Python `int(sqrt(n))` for a natural `n`: the floor square root. -/
def floorSqrt (n : Nat) : Nat := floorSqrtAux n n

/-- Embedding of `validate_sudoku_input` (lines 11-39).  Indexing an
empty grid raises `IndexError`; all four validation failures raise
`ValueError`; success returns the triple `(n_rows, n_cols, m)`. -/
def validate_sudoku_input (g : List (List Cell)) : Except PyError (Nat × Nat × Nat) :=
  match g with
  | [] => .error (.indexError "list index out of range")
  | first :: _ =>
    let n_rows := g.length
    let n_cols := first.length
    match checkRectangular n_cols 0 g with
    | .error e => .error e
    | .ok _ =>
      if n_rows ≠ n_cols then
        .error (.valueError s!"Sudoku grid is not square. Found {n_rows} rows and {n_cols} columns.")
      else
        let m := floorSqrt n_rows
        if m * m ≠ n_rows then
          .error (.valueError s!"Sudoku dimension {n_rows}x{n_cols} is invalid. The number of rows and columns must be a perfect square.")
        else
          match checkValues g n_rows (rowMajorPairs n_rows) with
          | .error e => .error e
          | .ok _ => .ok (n_rows, n_cols, m)

/-- A PuLP constraint as the program builds them: a name and the list of
decision variables `(row, col, value)` whose sum must equal 1. -/
structure Constraint where
  name : String
  vars : List (Nat × Nat × Nat)
deriving DecidableEq, Repr

/-- A binary assignment to the decision-variable cube
`grid_value[row][col][value]`. -/
abbrev Assignment := Nat → Nat → Nat → Bool

/-- The PuLP problem: the list of constraints added by the program (the
objective is the constant zero and plays no role). -/
structure Problem where
  constraints : List Constraint

/-- The value range `range(1, 1 + n)` used throughout `setup_problem`. -/
def valuesList (n : Nat) : List Nat := List.range' 1 n

/-- Embedding of the column constraints of `create_sudoku_constraints`
(lines 58-62). -/
def colConstraints (n : Nat) : List Constraint :=
  (List.range n).flatMap (fun col =>
    (valuesList n).map (fun v =>
      { name := s!"col_{col}_value_{v}",
        vars := (List.range n).map (fun row => (row, col, v)) }))

/-- Embedding of the row constraints of `create_sudoku_constraints`
(lines 64-68). -/
def rowConstraints (n : Nat) : List Constraint :=
  (List.range n).flatMap (fun row =>
    (valuesList n).map (fun v =>
      { name := s!"row_{row}_value_{v}",
        vars := (List.range n).map (fun col => (row, col, v)) }))

/-- Embedding of the cell constraints of `create_sudoku_constraints`
(lines 70-74). -/
def cellConstraints (n : Nat) : List Constraint :=
  (List.range n).flatMap (fun row =>
    (List.range n).map (fun col =>
      { name := s!"cell_{row}_{col}",
        vars := (valuesList n).map (fun v => (row, col, v)) }))

/-- Embedding of the sub-grid constraints of `create_sudoku_constraints`
(lines 76-83). -/
def boxConstraints (n m : Nat) : List Constraint :=
  (List.range m).flatMap (fun grid_row =>
    (List.range m).flatMap (fun grid_col =>
      (valuesList n).map (fun v =>
        { name := s!"subgrid_{grid_row}_{grid_col}_value_{v}",
          vars := (List.range m).flatMap (fun row =>
            (List.range m).map (fun col =>
              (grid_row * m + row, grid_col * m + col, v))) })))

/-- The prefilled-clue loop of `create_sudoku_constraints` (lines 85-91),
in row-major order.  A cell different from the integer 0 is decoded and
the variable `grid_vars[row][col][value]` is pinned to 1; when the
decoded value is outside `range(1, 1 + n)` that dictionary lookup raises
`KeyError`. -/
def prefilledAux (g : List (List Cell)) (n : Nat) : List (Nat × Nat) → Except PyError (List Constraint)
  | [] => .ok []
  | (r, c) :: rest =>
    if cellAt g r c = Cell.int 0 then prefilledAux g n rest
    else
      match convert_to_numeric (cellAt g r c) with
      | .error e => .error e
      | .ok v =>
        if 1 ≤ v ∧ v ≤ (n : Int) then
          match prefilledAux g n rest with
          | .error e => .error e
          | .ok cs => .ok ({ name := s!"prefilled_{r}_{c}", vars := [(r, c, v.toNat)] } :: cs)
        else .error (.keyError s!"{v}")

/-- The prefilled-clue constraints of `create_sudoku_constraints`. -/
def prefilledConstraints (g : List (List Cell)) (n : Nat) : Except PyError (List Constraint) :=
  prefilledAux g n (rowMajorPairs n)

/-- Embedding of `create_sudoku_constraints` (lines 57-91): column, row,
cell and sub-grid families followed by the prefilled clues, in the order
the program adds them. -/
def create_sudoku_constraints (n m : Nat) (g : List (List Cell)) : Except PyError (List Constraint) :=
  match prefilledConstraints g n with
  | .error e => .error e
  | .ok pre => .ok (colConstraints n ++ rowConstraints n ++ cellConstraints n ++ boxConstraints n m ++ pre)

/-- Embedding of `add_diagonal_sudoku_constraints` (lines 94-102): for
every value one constraint over the main diagonal `(i, i)` and one over
the anti-diagonal `(i, n - i - 1)`. -/
def add_diagonal_sudoku_constraints (n : Nat) : List Constraint :=
  (valuesList n).map (fun v =>
    { name := s!"diagonal1_value_{v}",
      vars := (List.range n).map (fun i => (i, i, v)) })
  ++ (valuesList n).map (fun v =>
    { name := s!"diagonal2_value_{v}",
      vars := (List.range n).map (fun i => (i, n - i - 1, v)) })

/-- A constraint holds under an assignment when the sum of its binary
variables equals 1, i.e. exactly one listed variable is true. -/
def constraintHolds (a : Assignment) (c : Constraint) : Bool :=
  c.vars.countP (fun t => a t.1 t.2.1 t.2.2) == 1

/-- An assignment is feasible for a problem when every constraint holds. -/
def satisfiesAll (a : Assignment) (p : Problem) : Bool :=
  p.constraints.all (constraintHolds a)

/-- The PuLP solution statuses (`plp.LpStatus`). -/
inductive Status where
  | Optimal
  | NotSolved
  | Infeasible
  | Unbounded
  | Undefined
deriving DecidableEq, Repr

/-- The external ILP backend invoked by `prob.solve()` (line 132): it
receives the assembled problem and reports a status together with the
values of the decision variables. -/
abbrev Backend := Problem → Status × Assignment

/-- A backend is sound when a reported `Optimal` status comes with an
assignment that satisfies every constraint of the problem. -/
def SoundBackend (B : Backend) : Prop :=
  ∀ p, (B p).1 = Status.Optimal → satisfiesAll (B p).2 p = true

/-- The problem assembled by `solver` (lines 119-129): validation, the
standard constraint families, and the diagonal family exactly when the
`diagonal` flag is set.  Returns the side length together with the
problem. -/
def sudokuProblem (g : List (List Cell)) (diagonal : Bool) : Except PyError (Nat × Problem) :=
  match validate_sudoku_input g with
  | .error e => .error e
  | .ok (n, _, m) =>
    match create_sudoku_constraints n m g with
    | .error e => .error e
    | .ok cons =>
      .ok (n, { constraints := if diagonal then cons ++ add_diagonal_sudoku_constraints n else cons })

/-- The symbol written into the solution grid by `extract_solution`
(line 112): numbers above 9 become letters via `chr(55 + value)`. -/
def encodeValue (v : Nat) : Cell :=
  if v > 9 then Cell.chr (Char.ofNat (55 + v)) else Cell.int (v : Int)

/-- Embedding of `extract_solution` (lines 105-113): each cell starts at
0 and is overwritten by the last value in `range(1, 1 + n)` whose binary
variable is set. -/
def extract_solution (a : Assignment) (n : Nat) : List (List Cell) :=
  (List.range n).map (fun r =>
    (List.range n).map (fun c =>
      (valuesList n).foldl (fun acc v => if a r c v then encodeValue v else acc) (Cell.int 0)))

/-- The body of `solver` (lines 117-139) before the enclosing
`try/except`: any validation or construction failure propagates, and a
non-`Optimal` status raises a generic `Exception`. -/
def solverBody (B : Backend) (g : List (List Cell)) (diagonal : Bool) : Except PyError (List (List Cell)) :=
  match sudokuProblem g diagonal with
  | .error e => .error e
  | .ok (n, p) =>
    if (B p).1 = Status.Optimal then .ok (extract_solution (B p).2 n)
    else .error (.exception "No optimal solution found.")

/-- Embedding of `solver` (lines 116-145): the `try/except` turns every
internal exception into the `None` result. -/
def solver (B : Backend) (g : List (List Cell)) (diagonal : Bool) : Option (List (List Cell)) :=
  match solverBody B g diagonal with
  | .ok s => some s
  | .error _ => none

/-- A backend that verifies a fixed candidate assignment against the
problem and reports `Optimal` exactly when it is feasible. -/
def checkingBackend (a : Assignment) : Backend :=
  fun p => if satisfiesAll a p then (Status.Optimal, a) else (Status.Infeasible, a)

/-- A backend that always reports infeasibility. -/
def constInfeasibleBackend : Backend :=
  fun _ => (Status.Infeasible, fun _ _ _ => false)

/-- Python `str()` of a cell, as used by `write_sudoku_solutions_to_file`
(line 202) when serializing a solution row. -/
def pyStr : Cell → String
  | .int n => toString n
  | .chr c => String.singleton c

/-- The Python exception class of an error value. -/
def errorClass : PyError → String
  | .valueError _ => "ValueError"
  | .keyError _ => "KeyError"
  | .indexError _ => "IndexError"
  | .exception _ => "Exception"

/-- The class of the exception a computation raised, if any. -/
def raisedClass {α : Type} : Except PyError α → Option String
  | .error e => some (errorClass e)
  | .ok _ => none

/-- A cell that is a Python integer different from 0 (a numeric clue). -/
def nonzeroInt : Cell → Bool
  | .int v => v != 0
  | .chr _ => false

/-- The components of the triple `validate_sudoku_input` returns. -/
def tripleToList (t : Nat × Nat × Nat) : List Nat := [t.1, t.2.1, t.2.2]

/-- Replace one cell of a grid. -/
def setCell (g : List (List Cell)) (r c : Nat) (x : Cell) : List (List Cell) :=
  g.set r ((g.getD r []).set c x)

/-! ### The batch reader: `read_sudokus_from_file` (lines 148-193) -/

/-- A line of the input file, already split into whitespace-separated
tokens; a token is a numeral or a single character. -/
abbrev Line := List Cell

/-- `f.readline()` at a stream position; past the end of the file Python
returns the empty string, which strips and splits into no tokens. -/
def readLineAt (lines : List Line) (pos : Nat) : Line := lines.getD pos []

/-- Python `int(token)` on a single token. -/
def pyIntTok : Cell → Except PyError Int
  | .int k => .ok k
  | .chr c =>
    if c.isDigit then .ok ((c.toNat : Int) - 48)
    else .error (.valueError "invalid literal for int with base 10")

/-- Python `int(line.strip())` (line 154): the stripped line must be one
integer token. -/
def pyIntLine (l : Line) : Except PyError Int :=
  match l with
  | [t] => pyIntTok t
  | _ => .error (.valueError "invalid literal for int with base 10")

/-- Python `map(int, tokens)` materialized over a token list. -/
def parseInts : List Cell → Except PyError (List Int)
  | [] => .ok []
  | t :: rest =>
    match pyIntTok t with
    | .error e => .error e
    | .ok v =>
      match parseInts rest with
      | .error e => .error e
      | .ok vs => .ok (v :: vs)

/-- The list comprehension `[convert_to_numeric(value) for value in row]`
(line 172) over a token list. -/
def decodeTokens : List Cell → Except PyError (List Int)
  | [] => .ok []
  | t :: rest =>
    match convert_to_numeric t with
    | .error e => .error e
    | .ok v =>
      match decodeTokens rest with
      | .error e => .error e
      | .ok vs => .ok (v :: vs)

/-- `dim, diagonal_flag = map(int, f.readline().strip().split())`
(line 157): exactly two integer tokens; a malformed token or a wrong
token count raises `ValueError`. -/
def parseHeader (l : Line) : Except PyError (Int × Int) :=
  match parseInts l with
  | .error e => .error e
  | .ok [d, f] => .ok (d, f)
  | .ok _ => .error (.valueError "values to unpack")

/-- One puzzle row (lines 167-177): the split line must have exactly
`dim` tokens, every token is decoded with `convert_to_numeric`, and each
decoded value must lie in `[0, dim]`. -/
def parseRow (l : Line) (dim : Nat) : Except PyError (List Int) :=
  if l.length ≠ dim then .error (.valueError "row has invalid length")
  else
    match decodeTokens l with
    | .error e => .error e
    | .ok vals =>
      if vals.all (fun v => decide (0 ≤ v) && decide (v ≤ (dim : Int))) then .ok vals
      else .error (.valueError "invalid value")

/-- Reading the `dim` rows of one puzzle; returns the parse result and
the stream position where reading stopped. -/
def readRows (lines : List Line) (dim : Nat) :
    Nat → Nat → Except PyError (List (List Int)) × Nat
  | pos, 0 => (.ok [], pos)
  | pos, k + 1 =>
    match parseRow (readLineAt lines pos) dim with
    | .error e => (.error e, pos + 1)
    | .ok row =>
      match readRows lines dim (pos + 1) k with
      | (.error e, pos2) => (.error e, pos2)
      | (.ok rows, pos2) => (.ok (row :: rows), pos2)

/-- One iteration of the reading loop (lines 156-182): header, perfect
square check on the dimension (Python `sqrt` raises `ValueError` on a
negative argument), `dim` rows, then the separating blank line, which is
consumed only on success. -/
def readOnePuzzle (lines : List Line) (pos : Nat) :
    Except PyError (List (List Int) × Bool) × Nat :=
  match parseHeader (readLineAt lines pos) with
  | .error e => (.error e, pos + 1)
  | .ok (dim, flag) =>
    if dim < 0 then (.error (.valueError "math domain error"), pos + 1)
    else
      let d := dim.toNat
      if floorSqrt d * floorSqrt d ≠ d then
        (.error (.valueError "invalid dimension, must be a perfect square"), pos + 1)
      else
        match readRows lines d (pos + 1) d with
        | (.error e, pos2) => (.error e, pos2)
        | (.ok rows, pos2) => (.ok (rows, flag == 1), pos2 + 1)

/-- The guarded per-puzzle loop (lines 155-186): `except ValueError`
catches a failed puzzle and the loop continues with the next iteration
from the stream position where the failure left off. -/
def readLoop (lines : List Line) :
    Nat → Nat → List (List (List Int)) → List Bool →
      List (List (List Int)) × List Bool
  | 0, _, sudokus, flags => (sudokus.reverse, flags.reverse)
  | k + 1, pos, sudokus, flags =>
    match readOnePuzzle lines pos with
    | (.error _, pos2) => readLoop lines k pos2 sudokus flags
    | (.ok (s, f), pos2) => readLoop lines k pos2 (s :: sudokus) (f :: flags)

/-- Embedding of `read_sudokus_from_file` (lines 148-193) over a
tokenized line stream: the first line gives the number of puzzles (a
failure there is caught by the outer handler, yielding empty results),
then that many iterations of the guarded loop run. -/
def read_sudokus_from_file (lines : List Line) :
    List (List (List Int)) × List Bool :=
  match pyIntLine (readLineAt lines 0) with
  | .error _ => ([], [])
  | .ok num => readLoop lines num.toNat 1 [] []

/-- A parsed puzzle the reader considers well formed: square side that
is a perfect square, with every decoded value in `[0, side]`. -/
def wfPuzzle (s : List (List Int)) : Prop :=
  floorSqrt s.length * floorSqrt s.length = s.length ∧
  ∀ row ∈ s, row.length = s.length ∧ ∀ v ∈ row, 0 ≤ v ∧ v ≤ (s.length : Int)

/-! ### Concrete grids, assignments and input streams -/

/-- A solved 4 by 4 grid; its two main diagonals also contain 1..4. -/
def solved4 : List (List Cell) :=
  [[Cell.int 1, Cell.int 2, Cell.int 3, Cell.int 4],
   [Cell.int 3, Cell.int 4, Cell.int 1, Cell.int 2],
   [Cell.int 4, Cell.int 3, Cell.int 2, Cell.int 1],
   [Cell.int 2, Cell.int 1, Cell.int 4, Cell.int 3]]

/-- `solved4` with its first cell blanked out. -/
def puzzle4 : List (List Cell) :=
  [[Cell.int 0, Cell.int 2, Cell.int 3, Cell.int 4],
   [Cell.int 3, Cell.int 4, Cell.int 1, Cell.int 2],
   [Cell.int 4, Cell.int 3, Cell.int 2, Cell.int 1],
   [Cell.int 2, Cell.int 1, Cell.int 4, Cell.int 3]]

/-- The assignment encoding `solved4`. -/
def a4 : Assignment := fun r c v => cellAt solved4 r c == Cell.int (v : Int)

/-- A solved 16 by 16 grid, built from the standard shift pattern. -/
def grid16 : List (List Cell) :=
  (List.range 16).map (fun r => (List.range 16).map (fun c =>
    Cell.int (((c + 4 * (r % 4) + r / 4) % 16 + 1 : Nat) : Int)))

/-- The assignment encoding `grid16`. -/
def a16 : Assignment := fun r c v => (c + 4 * (r % 4) + r / 4) % 16 + 1 == v

/-- What `extract_solution` produces from `a16`: values above 9 come
back as letters. -/
def out16 : List (List Cell) :=
  (List.range 16).map (fun r => (List.range 16).map (fun c =>
    encodeValue ((c + 4 * (r % 4) + r / 4) % 16 + 1)))

/-- A 4-row by 5-column grid of zeros. -/
def grid45 : List (List Cell) := List.replicate 4 (List.replicate 5 (Cell.int 0))

/-- A 5 by 5 grid of zeros. -/
def grid55 : List (List Cell) := List.replicate 5 (List.replicate 5 (Cell.int 0))

/-- A 4 by 4 grid of zeros. -/
def grid4zeros : List (List Cell) := List.replicate 4 (List.replicate 4 (Cell.int 0))

/-- A ragged grid: the second row is shorter than the first. -/
def gridRagged : List (List Cell) :=
  [[Cell.int 0, Cell.int 0], [Cell.int 0]]

/-- A 4 by 4 grid with one out-of-range value. -/
def gridBadValue : List (List Cell) :=
  [Cell.int 9, Cell.int 0, Cell.int 0, Cell.int 0] :: List.replicate 3 (List.replicate 4 (Cell.int 0))

/-- A 4 by 4 grid with the value 1 twice in its first row. -/
def gridDupRow : List (List Cell) :=
  [Cell.int 1, Cell.int 1, Cell.int 0, Cell.int 0] :: List.replicate 3 (List.replicate 4 (Cell.int 0))

/-- `solved4` as the reader returns it. -/
def solved4Int : List (List Int) := [[1, 2, 3, 4], [3, 4, 1, 2], [4, 3, 2, 1], [2, 1, 4, 3]]

/-- A two-puzzle input stream: the first puzzle declares a 4 by 4 grid
but its first row holds the out-of-range value 9; the second puzzle is
the valid `solved4`. -/
def badBatch : List Line :=
  [[Cell.int 2],
   [Cell.int 4, Cell.int 0],
   [Cell.int 9, Cell.int 0, Cell.int 0, Cell.int 0],
   [Cell.int 0, Cell.int 0, Cell.int 0, Cell.int 0],
   [Cell.int 0, Cell.int 0, Cell.int 0, Cell.int 0],
   [Cell.int 0, Cell.int 0, Cell.int 0, Cell.int 0],
   [],
   [Cell.int 4, Cell.int 0],
   [Cell.int 1, Cell.int 2, Cell.int 3, Cell.int 4],
   [Cell.int 3, Cell.int 4, Cell.int 1, Cell.int 2],
   [Cell.int 4, Cell.int 3, Cell.int 2, Cell.int 1],
   [Cell.int 2, Cell.int 1, Cell.int 4, Cell.int 3],
   []]

/-- The second puzzle of `badBatch` on its own, which parses cleanly. -/
def soloBatch : List Line :=
  [[Cell.int 1],
   [Cell.int 4, Cell.int 0],
   [Cell.int 1, Cell.int 2, Cell.int 3, Cell.int 4],
   [Cell.int 3, Cell.int 4, Cell.int 1, Cell.int 2],
   [Cell.int 4, Cell.int 3, Cell.int 2, Cell.int 1],
   [Cell.int 2, Cell.int 1, Cell.int 4, Cell.int 3],
   []]

/-! ### Generic counting and folding lemmas -/

theorem countP_two_le {α : Type} {p : α → Bool} {x y : α} :
    ∀ {l : List α}, x ∈ l → y ∈ l → x ≠ y → p x = true → p y = true → 2 ≤ l.countP p := by
  intro l
  induction l with
  | nil => intro h; cases h
  | cons h t ih =>
    intro hx hy hxy hpx hpy
    rcases List.mem_cons.mp hx with rfl | hx'
    · rcases List.mem_cons.mp hy with rfl | hy'
      · exact absurd rfl hxy
      · have h1 : 0 < t.countP p := List.countP_pos_iff.mpr ⟨y, hy', hpy⟩
        rw [List.countP_cons, if_pos hpx]
        omega
    · rcases List.mem_cons.mp hy with rfl | hy'
      · have h1 : 0 < t.countP p := List.countP_pos_iff.mpr ⟨x, hx', hpx⟩
        rw [List.countP_cons, if_pos hpy]
        omega
      · have h2 := ih hx' hy' hxy hpx hpy
        calc 2 ≤ t.countP p := h2
          _ ≤ (h :: t).countP p := by
            rw [List.countP_cons]; exact Nat.le_add_right _ _

theorem countP_one_unique {α : Type} {p : α → Bool} {l : List α} (h : l.countP p = 1) :
    ∃ x ∈ l, p x = true ∧ ∀ y ∈ l, p y = true → y = x := by
  have hpos : 0 < l.countP p := by omega
  obtain ⟨x, hx, hpx⟩ := List.countP_pos_iff.mp hpos
  refine ⟨x, hx, hpx, fun y hy hpy => ?_⟩
  by_contra hne
  have := countP_two_le hx hy (Ne.symm hne) hpx hpy
  omega

theorem foldl_of_countP_zero {α β : Type} {p : α → Bool} {f : α → β} :
    ∀ {l : List α} (init : β), l.countP p = 0 →
      l.foldl (fun acc v => if p v then f v else acc) init = init := by
  intro l
  induction l with
  | nil => intro init _; rfl
  | cons h t ih =>
    intro init hc
    have hmem := List.countP_eq_zero.mp hc
    have hph : p h = false := by
      have := hmem h (List.mem_cons_self h t)
      simp at this
      exact this
    have ht : t.countP p = 0 :=
      List.countP_eq_zero.mpr (fun a ha => hmem a (List.mem_cons_of_mem h ha))
    rw [List.foldl_cons, if_neg (by simp [hph])]
    exact ih init ht

theorem foldl_pick_unique {α β : Type} {p : α → Bool} {f : α → β} {x : α} :
    ∀ {l : List α} (init : β), l.countP p = 1 → x ∈ l → p x = true →
      (∀ y ∈ l, p y = true → y = x) →
      l.foldl (fun acc v => if p v then f v else acc) init = f x := by
  intro l
  induction l with
  | nil => intro _ _ h; cases h
  | cons h t ih =>
    intro init hc hx hpx huniq
    rw [List.countP_cons] at hc
    cases hph : p h with
    | true =>
      have hhx : h = x := huniq h (List.mem_cons_self _ _) hph
      simp only [hph, if_true] at hc
      rw [List.foldl_cons, if_pos (by simp [hph]), hhx]
      exact foldl_of_countP_zero (f x) (by omega)
    | false =>
      have hx' : x ∈ t := by
        rcases List.mem_cons.mp hx with rfl | hx'
        · rw [hph] at hpx; cases hpx
        · exact hx'
      rw [List.foldl_cons, if_neg (by simp [hph])]
      simp only [hph, Bool.false_eq_true, if_false] at hc
      exact ih init (by omega) hx' hpx
        (fun y hy hpy => huniq y (List.mem_cons_of_mem _ hy) hpy)

/-! ### Basic facts about the embedded definitions -/

theorem mem_valuesList {n v : Nat} : v ∈ valuesList n ↔ 1 ≤ v ∧ v ≤ n := by
  simp [valuesList, List.mem_range'_1]
  omega

theorem mem_rowMajorPairs {n : Nat} {pr : Nat × Nat} :
    pr ∈ rowMajorPairs n ↔ pr.1 < n ∧ pr.2 < n := by
  rcases pr with ⟨r, c⟩
  simp [rowMajorPairs, List.mem_flatMap, List.mem_map, List.mem_range]

/-- `convert_to_numeric` inverts `encodeValue` on the symbol domain
`[1, 35]` of the codec. -/
theorem convert_encodeValue : ∀ v : Nat, v < 36 → 1 ≤ v →
    convert_to_numeric (encodeValue v) = .ok (v : Int) := by decide

/-- `encodeValue` keeps values at most 9 as plain integers. -/
theorem encodeValue_le_nine : ∀ v : Nat, v < 10 → encodeValue v = Cell.int (v : Int) := by decide

/-- Every failure of `convert_to_numeric` is a `ValueError`. -/
theorem convert_error_shape {cell : Cell} {e : PyError} :
    convert_to_numeric cell = .error e → ∃ msg, e = .valueError msg := by
  intro h
  cases cell with
  | int n => cases h
  | chr c =>
    cases h1 : c.isAlpha with
    | true => simp [convert_to_numeric, h1] at h
    | false =>
      cases h2 : c.isDigit with
      | true => simp [convert_to_numeric, h1, h2] at h
      | false =>
        simp only [convert_to_numeric, h1, h2, Bool.false_eq_true, if_false,
          Except.error.injEq] at h
        exact ⟨_, h.symm⟩

/-! ### Structure of the validator -/

theorem checkRectangular_ok_iff {nc : Nat} :
    ∀ {idx : Nat} {l : List (List Cell)},
      checkRectangular nc idx l = .ok () ↔ ∀ row ∈ l, row.length = nc := by
  intro idx l
  induction l generalizing idx with
  | nil => simp [checkRectangular]
  | cons row rest ih =>
    by_cases hlen : row.length = nc
    · simp only [checkRectangular]
      rw [if_neg (show ¬(row.length ≠ nc) by omega)]
      rw [ih]
      constructor
      · intro hall r hr
        rcases List.mem_cons.mp hr with rfl | hr'
        · exact hlen
        · exact hall r hr'
      · intro hall r hr
        exact hall r (List.mem_cons_of_mem _ hr)
    · simp only [checkRectangular, if_pos hlen]
      constructor
      · intro h; cases h
      · intro hall
        exact absurd (hall row (List.mem_cons_self _ _)) hlen

theorem checkValues_ok_iff {g : List (List Cell)} {n : Nat} :
    ∀ {prs : List (Nat × Nat)},
      checkValues g n prs = .ok () ↔
        ∀ pr ∈ prs, ∃ v, convert_to_numeric (cellAt g pr.1 pr.2) = .ok v ∧
          0 ≤ v ∧ v ≤ (n : Int) := by
  intro prs
  induction prs with
  | nil => simp [checkValues]
  | cons pr rest ih =>
    rcases pr with ⟨r, c⟩
    cases hconv : convert_to_numeric (cellAt g r c) with
    | error e =>
      simp only [checkValues, hconv]
      constructor
      · intro h; cases h
      · intro hall
        obtain ⟨v, hv, _⟩ := hall (r, c) (List.mem_cons_self _ _)
        rw [hconv] at hv; cases hv
    | ok v =>
      simp only [checkValues, hconv]
      by_cases hrange : 0 ≤ v ∧ v ≤ (n : Int)
      · rw [if_pos hrange, ih]
        constructor
        · intro hall pr' hpr'
          rcases List.mem_cons.mp hpr' with rfl | hpr''
          · exact ⟨v, hconv, hrange⟩
          · exact hall pr' hpr''
        · intro hall pr' hpr'
          exact hall pr' (List.mem_cons_of_mem _ hpr')
      · rw [if_neg hrange]
        constructor
        · intro h; cases h
        · intro hall
          obtain ⟨v', hv', hr'⟩ := hall (r, c) (List.mem_cons_self _ _)
          rw [hconv] at hv'
          cases hv'
          exact absurd hr' hrange

theorem checkValues_error_shape {g : List (List Cell)} {n : Nat} :
    ∀ {prs : List (Nat × Nat)} {e : PyError},
      checkValues g n prs = .error e → ∃ msg, e = .valueError msg := by
  intro prs
  induction prs with
  | nil => intro e h; cases h
  | cons pr rest ih =>
    intro e h
    rcases pr with ⟨r, c⟩
    cases hconv : convert_to_numeric (cellAt g r c) with
    | error e' =>
      simp only [checkValues, hconv] at h
      cases h
      exact convert_error_shape hconv
    | ok v =>
      simp only [checkValues, hconv] at h
      by_cases hrange : 0 ≤ v ∧ v ≤ (n : Int)
      · rw [if_pos hrange] at h
        exact ih h
      · rw [if_neg hrange] at h
        cases h
        exact ⟨_, rfl⟩

/-- What a successful validation guarantees: the grid is a nonempty
square of side `n = m * m`, and every cell decodes to a value in
`[0, n]`. -/
theorem validate_ok_spec {g : List (List Cell)} {n nc m : Nat}
    (h : validate_sudoku_input g = .ok (n, nc, m)) :
    n = g.length ∧ nc = n ∧ m = floorSqrt n ∧ m * m = n ∧
      (∀ row ∈ g, row.length = n) ∧
      (∀ r c, r < n → c < n →
        ∃ v, convert_to_numeric (cellAt g r c) = .ok v ∧ 0 ≤ v ∧ v ≤ (n : Int)) := by
  match g with
  | [] => cases h
  | first :: rest =>
    rw [validate_sudoku_input] at h
    cases hrect : checkRectangular first.length 0 (first :: rest) with
    | error e => rw [hrect] at h; cases h
    | ok u =>
      rw [hrect] at h
      by_cases hsq : (first :: rest).length = first.length
      · rw [if_neg (not_ne_iff.mpr hsq)] at h
        by_cases hm : floorSqrt (first :: rest).length * floorSqrt (first :: rest).length
            = (first :: rest).length
        · rw [if_neg (not_ne_iff.mpr hm)] at h
          cases hvals : checkValues (first :: rest) (first :: rest).length
              (rowMajorPairs (first :: rest).length) with
          | error e => rw [hvals] at h; cases h
          | ok u' =>
            rw [hvals] at h
            injection h with h1
            injection h1 with hn h2
            injection h2 with hnc hm'
            subst hn; subst hnc; subst hm'
            refine ⟨rfl, hsq.symm, rfl, hm, ?_, ?_⟩
            · intro row hrow
              rw [hsq]
              exact checkRectangular_ok_iff.mp (by rw [hrect]) row hrow
            · intro r c hr hc
              exact checkValues_ok_iff.mp (by rw [hvals]) (r, c)
                (mem_rowMajorPairs.mpr ⟨hr, hc⟩)
        · rw [if_pos hm] at h; cases h
      · rw [if_pos hsq] at h; cases h

/-- Once the shape checks pass, validation reduces to the value check. -/
theorem validate_eq_of_shape {g : List (List Cell)} (h0 : g ≠ [])
    (hrows : ∀ row ∈ g, row.length = g.length)
    (hsq : floorSqrt g.length * floorSqrt g.length = g.length) :
    validate_sudoku_input g =
      match checkValues g g.length (rowMajorPairs g.length) with
      | .error e => .error e
      | .ok _ => .ok (g.length, g.length, floorSqrt g.length) := by
  match g with
  | [] => exact absurd rfl h0
  | first :: rest =>
    rw [validate_sudoku_input]
    have hfirst : first.length = (first :: rest).length :=
      hrows first (List.mem_cons_self _ _)
    rw [checkRectangular_ok_iff.mpr
      (fun row hrow => (hrows row hrow).trans hfirst.symm)]
    rw [if_neg (not_ne_iff.mpr hfirst.symm), if_neg (not_ne_iff.mpr hsq)]
    rw [hfirst]

/-! ### Structure of the constraint builder and the solver -/

theorem prefilledAux_mem {g : List (List Cell)} {n : Nat} :
    ∀ {prs : List (Nat × Nat)} {cs : List Constraint},
      prefilledAux g n prs = .ok cs →
      ∀ r c, (r, c) ∈ prs → cellAt g r c ≠ Cell.int 0 →
      ∃ v : Int, convert_to_numeric (cellAt g r c) = .ok v ∧ 1 ≤ v ∧ v ≤ (n : Int) ∧
        ({ name := s!"prefilled_{r}_{c}", vars := [(r, c, v.toNat)] } : Constraint) ∈ cs := by
  intro prs
  induction prs with
  | nil => intro cs h r c hmem; cases hmem
  | cons pr rest ih =>
    intro cs h r c hmem hne
    rcases pr with ⟨r', c'⟩
    by_cases h0 : cellAt g r' c' = Cell.int 0
    · rw [prefilledAux, if_pos h0] at h
      rcases List.mem_cons.mp hmem with heq | hmem'
      · injection heq with h1 h2
        subst h1; subst h2
        exact absurd h0 hne
      · exact ih h r c hmem' hne
    · rw [prefilledAux, if_neg h0] at h
      cases hconv : convert_to_numeric (cellAt g r' c') with
      | error e => simp only [hconv] at h; cases h
      | ok v =>
        simp only [hconv] at h
        by_cases hrange : 1 ≤ v ∧ v ≤ (n : Int)
        · rw [if_pos hrange] at h
          cases hrest : prefilledAux g n rest with
          | error e => simp only [hrest] at h; cases h
          | ok cs' =>
            simp only [hrest] at h
            injection h with h'
            subst h'
            rcases List.mem_cons.mp hmem with heq | hmem'
            · injection heq with h1 h2
              subst h1; subst h2
              exact ⟨v, hconv, hrange.1, hrange.2, List.mem_cons_self _ _⟩
            · obtain ⟨v', hv', h1, h2, hmem''⟩ := ih hrest r c hmem' hne
              exact ⟨v', hv', h1, h2, List.mem_cons_of_mem _ hmem''⟩
        · rw [if_neg hrange] at h; cases h

theorem mem_cellConstraints {n row col : Nat} (hr : row < n) (hc : col < n) :
    ({ name := s!"cell_{row}_{col}",
       vars := (valuesList n).map (fun v => (row, col, v)) } : Constraint)
      ∈ cellConstraints n := by
  rw [cellConstraints, List.mem_flatMap]
  exact ⟨row, List.mem_range.mpr hr, List.mem_map.mpr ⟨col, List.mem_range.mpr hc, rfl⟩⟩

theorem mem_rowConstraints {n row v : Nat} (hr : row < n) (hv : v ∈ valuesList n) :
    ({ name := s!"row_{row}_value_{v}",
       vars := (List.range n).map (fun col => (row, col, v)) } : Constraint)
      ∈ rowConstraints n := by
  rw [rowConstraints, List.mem_flatMap]
  exact ⟨row, List.mem_range.mpr hr, List.mem_map.mpr ⟨v, hv, rfl⟩⟩

theorem mem_colConstraints {n col v : Nat} (hc : col < n) (hv : v ∈ valuesList n) :
    ({ name := s!"col_{col}_value_{v}",
       vars := (List.range n).map (fun row => (row, col, v)) } : Constraint)
      ∈ colConstraints n := by
  rw [colConstraints, List.mem_flatMap]
  exact ⟨col, List.mem_range.mpr hc, List.mem_map.mpr ⟨v, hv, rfl⟩⟩

theorem mem_boxConstraints {n m gr gc v : Nat} (hgr : gr < m) (hgc : gc < m)
    (hv : v ∈ valuesList n) :
    ({ name := s!"subgrid_{gr}_{gc}_value_{v}",
       vars := (List.range m).flatMap (fun row =>
         (List.range m).map (fun col => (gr * m + row, gc * m + col, v))) } : Constraint)
      ∈ boxConstraints n m := by
  rw [boxConstraints, List.mem_flatMap]
  refine ⟨gr, List.mem_range.mpr hgr, ?_⟩
  rw [List.mem_flatMap]
  exact ⟨gc, List.mem_range.mpr hgc, List.mem_map.mpr ⟨v, hv, rfl⟩⟩

theorem constraintHolds_map {a : Assignment} {nm : String} {α : Type}
    {l : List α} {f : α → Nat × Nat × Nat} :
    constraintHolds a { name := nm, vars := l.map f } = true ↔
      l.countP (fun x => a (f x).1 (f x).2.1 (f x).2.2) = 1 := by
  simp only [constraintHolds, List.countP_map, beq_iff_eq]
  exact Iff.rfl

theorem satisfiesAll_mem {a : Assignment} {p : Problem} {c : Constraint}
    (h : satisfiesAll a p = true) (hc : c ∈ p.constraints) : constraintHolds a c = true :=
  List.all_eq_true.mp h c hc

theorem create_ok_spec {n m : Nat} {g : List (List Cell)} {cons : List Constraint}
    (h : create_sudoku_constraints n m g = .ok cons) :
    ∃ pre, prefilledConstraints g n = .ok pre ∧
      cons = colConstraints n ++ rowConstraints n ++ cellConstraints n ++ boxConstraints n m
        ++ pre := by
  rw [create_sudoku_constraints] at h
  cases hpre : prefilledConstraints g n with
  | error e => rw [hpre] at h; cases h
  | ok pre =>
    rw [hpre] at h
    injection h with h1
    exact ⟨pre, rfl, h1.symm⟩

theorem sudokuProblem_ok_spec {g : List (List Cell)} {diagonal : Bool} {n : Nat} {p : Problem}
    (h : sudokuProblem g diagonal = .ok (n, p)) :
    ∃ nc m pre, validate_sudoku_input g = .ok (n, nc, m) ∧
      prefilledConstraints g n = .ok pre ∧
      p.constraints =
        (if diagonal then
          (colConstraints n ++ rowConstraints n ++ cellConstraints n ++ boxConstraints n m
            ++ pre) ++ add_diagonal_sudoku_constraints n
         else
          colConstraints n ++ rowConstraints n ++ cellConstraints n ++ boxConstraints n m
            ++ pre) := by
  rw [sudokuProblem] at h
  cases hval : validate_sudoku_input g with
  | error e => rw [hval] at h; cases h
  | ok t =>
    rcases t with ⟨n', nc, m⟩
    simp only [hval] at h
    cases hcre : create_sudoku_constraints n' m g with
    | error e => simp only [hcre] at h; cases h
    | ok cons =>
      simp only [hcre] at h
      injection h with h1
      injection h1 with hn hp
      subst hn
      obtain ⟨pre, hpre, hcons⟩ := create_ok_spec hcre
      refine ⟨nc, m, pre, rfl, hpre, ?_⟩
      rw [← hp]
      cases diagonal <;> simp [hcons]

theorem solver_some_spec {B : Backend} {g : List (List Cell)} {diagonal : Bool}
    {out : List (List Cell)} (h : solver B g diagonal = some out) :
    ∃ n p, sudokuProblem g diagonal = .ok (n, p) ∧ (B p).1 = Status.Optimal ∧
      out = extract_solution (B p).2 n := by
  rw [solver] at h
  cases hb : solverBody B g diagonal with
  | error e => rw [hb] at h; cases h
  | ok s =>
    rw [hb] at h
    injection h with h1
    subst h1
    rw [solverBody] at hb
    cases hsp : sudokuProblem g diagonal with
    | error e => rw [hsp] at hb; cases hb
    | ok t =>
      rcases t with ⟨n, p⟩
      simp only [hsp] at hb
      by_cases hst : (B p).1 = Status.Optimal
      · rw [if_pos hst] at hb
        injection hb with hb1
        exact ⟨n, p, rfl, hst, hb1.symm⟩
      · rw [if_neg hst] at hb; cases hb

theorem solver_none_of_not_optimal {B : Backend} {g : List (List Cell)} {diagonal : Bool}
    {n : Nat} {p : Problem} (hsp : sudokuProblem g diagonal = .ok (n, p))
    (hst : (B p).1 ≠ Status.Optimal) : solver B g diagonal = none := by
  rw [solver, solverBody]
  simp only [hsp]
  rw [if_neg hst]

theorem solver_none_of_body_error {B : Backend} {g : List (List Cell)} {diagonal : Bool}
    {e : PyError} (hb : solverBody B g diagonal = .error e) : solver B g diagonal = none := by
  rw [solver, hb]

theorem extract_solution_length {a : Assignment} {n : Nat} :
    (extract_solution a n).length = n := by
  simp [extract_solution]

theorem extract_solution_row {a : Assignment} {n r : Nat} (hr : r < n) :
    (extract_solution a n).getD r [] =
      (List.range n).map (fun c =>
        (valuesList n).foldl (fun acc v => if a r c v then encodeValue v else acc)
          (Cell.int 0)) := by
  rw [extract_solution, List.getD_eq_getElem _ _ (by simp [hr]), List.getElem_map,
    List.getElem_range]

theorem cellAt_extract {a : Assignment} {n r c : Nat} (hr : r < n) (hc : c < n) :
    cellAt (extract_solution a n) r c =
      (valuesList n).foldl (fun acc v => if a r c v then encodeValue v else acc)
        (Cell.int 0) := by
  rw [cellAt, extract_solution_row hr, List.getD_eq_getElem _ _ (by simp [hc]),
    List.getElem_map, List.getElem_range]

/-! ### Consequences of a satisfied constraint system -/

/-- The cells of box `(gr, gc)`, in the order the box constraint lists
them. -/
def boxCellList (m gr gc : Nat) : List (Nat × Nat) :=
  (List.range m).flatMap (fun i => (List.range m).map (fun j => (gr * m + i, gc * m + j)))

theorem boxConstraint_vars_eq {m gr gc v : Nat} :
    (List.range m).flatMap (fun row => (List.range m).map (fun col =>
      (gr * m + row, gc * m + col, v))) =
    (boxCellList m gr gc).map (fun rc => (rc.1, rc.2, v)) := by
  rw [boxCellList, List.map_flatMap]
  simp only [List.map_map]
  rfl

theorem mem_boxCellList {m gr gc : Nat} {rc : Nat × Nat} :
    rc ∈ boxCellList m gr gc ↔
      ∃ i < m, ∃ j < m, rc = (gr * m + i, gc * m + j) := by
  constructor
  · intro h
    rw [boxCellList, List.mem_flatMap] at h
    obtain ⟨i, hi, h2⟩ := h
    obtain ⟨j, hj, heq⟩ := List.mem_map.mp h2
    exact ⟨i, List.mem_range.mp hi, j, List.mem_range.mp hj, heq.symm⟩
  · rintro ⟨i, hi, j, hj, heq⟩
    rw [boxCellList, List.mem_flatMap]
    exact ⟨i, List.mem_range.mpr hi, List.mem_map.mpr ⟨j, List.mem_range.mpr hj, heq.symm⟩⟩

theorem constraintHolds_single {a : Assignment} {nm : String} {x : Nat × Nat × Nat} :
    constraintHolds a { name := nm, vars := [x] } = true ↔ a x.1 x.2.1 x.2.2 = true := by
  rw [constraintHolds, List.countP_singleton]
  cases h : a x.1 x.2.1 x.2.2 <;> simp [h]

theorem cell_value_count {a : Assignment} {n r c : Nat}
    (h : ∀ cc ∈ cellConstraints n, constraintHolds a cc = true) (hr : r < n) (hc : c < n) :
    (valuesList n).countP (fun v => a r c v) = 1 :=
  constraintHolds_map.mp (h _ (mem_cellConstraints hr hc))

theorem row_value_count {a : Assignment} {n r v : Nat}
    (h : ∀ cc ∈ rowConstraints n, constraintHolds a cc = true) (hr : r < n)
    (hv : v ∈ valuesList n) :
    (List.range n).countP (fun c => a r c v) = 1 :=
  constraintHolds_map.mp (h _ (mem_rowConstraints hr hv))

theorem col_value_count {a : Assignment} {n c v : Nat}
    (h : ∀ cc ∈ colConstraints n, constraintHolds a cc = true) (hc : c < n)
    (hv : v ∈ valuesList n) :
    (List.range n).countP (fun r => a r c v) = 1 :=
  constraintHolds_map.mp (h _ (mem_colConstraints hc hv))

theorem box_value_count {a : Assignment} {n m gr gc v : Nat}
    (h : ∀ cc ∈ boxConstraints n m, constraintHolds a cc = true) (hgr : gr < m)
    (hgc : gc < m) (hv : v ∈ valuesList n) :
    (boxCellList m gr gc).countP (fun rc => a rc.1 rc.2 v) = 1 := by
  have hh := h _ (mem_boxConstraints hgr hgc hv)
  rw [boxConstraint_vars_eq] at hh
  exact constraintHolds_map.mp hh

theorem mem_diag1Constraints {n v : Nat} (hv : v ∈ valuesList n) :
    ({ name := s!"diagonal1_value_{v}",
       vars := (List.range n).map (fun i => (i, i, v)) } : Constraint)
      ∈ add_diagonal_sudoku_constraints n := by
  rw [add_diagonal_sudoku_constraints]
  exact List.mem_append_left _ (List.mem_map.mpr ⟨v, hv, rfl⟩)

theorem mem_diag2Constraints {n v : Nat} (hv : v ∈ valuesList n) :
    ({ name := s!"diagonal2_value_{v}",
       vars := (List.range n).map (fun i => (i, n - i - 1, v)) } : Constraint)
      ∈ add_diagonal_sudoku_constraints n := by
  rw [add_diagonal_sudoku_constraints]
  exact List.mem_append_right _ (List.mem_map.mpr ⟨v, hv, rfl⟩)

theorem diag1_value_count {a : Assignment} {n v : Nat}
    (h : ∀ cc ∈ add_diagonal_sudoku_constraints n, constraintHolds a cc = true)
    (hv : v ∈ valuesList n) :
    (List.range n).countP (fun i => a i i v) = 1 :=
  constraintHolds_map.mp (h _ (mem_diag1Constraints hv))

theorem diag2_value_count {a : Assignment} {n v : Nat}
    (h : ∀ cc ∈ add_diagonal_sudoku_constraints n, constraintHolds a cc = true)
    (hv : v ∈ valuesList n) :
    (List.range n).countP (fun i => a i (n - i - 1) v) = 1 :=
  constraintHolds_map.mp (h _ (mem_diag2Constraints hv))

/-- When the cell constraint at `(r, c)` holds, the extracted cell is the
encoding of the unique set value. -/
theorem extract_unique_val {a : Assignment} {n r c : Nat}
    (hcount : (valuesList n).countP (fun v => a r c v) = 1) (hr : r < n) (hc : c < n) :
    ∃ v0, v0 ∈ valuesList n ∧ a r c v0 = true ∧
      (∀ y ∈ valuesList n, a r c y = true → y = v0) ∧
      cellAt (extract_solution a n) r c = encodeValue v0 := by
  obtain ⟨v0, hv0, hav0, huniq⟩ := countP_one_unique hcount
  refine ⟨v0, hv0, hav0, huniq, ?_⟩
  rw [cellAt_extract hr hc]
  exact foldl_pick_unique _ hcount hv0 hav0 huniq

/-- Exact-cover counts transfer from the assignment to the decoded cells
of the extracted grid, for any selection of in-range positions. -/
theorem decoded_count_one {a : Assignment} {n v : Nat}
    (hcell : ∀ cc ∈ cellConstraints n, constraintHolds a cc = true)
    (hn : n ≤ 35) (hv : v ∈ valuesList n)
    {idx : List (Nat × Nat)} (hidx : ∀ rc ∈ idx, rc.1 < n ∧ rc.2 < n)
    (hcount : idx.countP (fun rc => a rc.1 rc.2 v) = 1) :
    (idx.map (fun rc => cellAt (extract_solution a n) rc.1 rc.2)).countP
      (fun cell => decide (convert_to_numeric cell = .ok (v : Int))) = 1 := by
  rw [List.countP_map, ← hcount]
  apply List.countP_congr
  intro rc hrc
  obtain ⟨hr, hc⟩ := hidx rc hrc
  obtain ⟨v0, hv0mem, hav0, huniq, hcell_eq⟩ :=
    extract_unique_val (cell_value_count hcell hr hc) hr hc
  obtain ⟨hv01, hv0n⟩ := mem_valuesList.mp hv0mem
  have hdec : convert_to_numeric (cellAt (extract_solution a n) rc.1 rc.2)
      = .ok (v0 : Int) := by
    rw [hcell_eq]
    exact convert_encodeValue v0 (by omega) hv01
  simp only [Function.comp, hdec, decide_eq_true_eq, Except.ok.injEq, Nat.cast_inj]
  constructor
  · intro hvv0
    rw [← hvv0]
    exact hav0
  · intro ha
    exact (huniq v hv ha).symm

/-- Everything a sound backend guarantees when `solver` succeeds: the
input validated as an `n` by `n` grid, and the reported assignment
satisfies every constraint family the program added. -/
theorem solved_core {B : Backend} {g : List (List Cell)} {diagonal : Bool}
    {out : List (List Cell)} (hB : SoundBackend B) (h : solver B g diagonal = some out) :
    ∃ n nc m pre a,
      validate_sudoku_input g = .ok (n, nc, m) ∧
      prefilledConstraints g n = .ok pre ∧
      out = extract_solution a n ∧
      (∀ cc ∈ colConstraints n, constraintHolds a cc = true) ∧
      (∀ cc ∈ rowConstraints n, constraintHolds a cc = true) ∧
      (∀ cc ∈ cellConstraints n, constraintHolds a cc = true) ∧
      (∀ cc ∈ boxConstraints n m, constraintHolds a cc = true) ∧
      (∀ cc ∈ pre, constraintHolds a cc = true) ∧
      (diagonal = true → ∀ cc ∈ add_diagonal_sudoku_constraints n,
        constraintHolds a cc = true) := by
  obtain ⟨n, p, hsp, hopt, hout⟩ := solver_some_spec h
  obtain ⟨nc, m, pre, hval, hpre, hcons⟩ := sudokuProblem_ok_spec hsp
  have hsat := hB p hopt
  have hbase : ∀ cc, cc ∈ colConstraints n ++ rowConstraints n ++ cellConstraints n
      ++ boxConstraints n m ++ pre → constraintHolds (B p).2 cc = true := by
    intro cc hcc
    apply satisfiesAll_mem hsat
    rw [hcons]
    cases diagonal with
    | false => exact hcc
    | true => exact List.mem_append_left _ hcc
  refine ⟨n, nc, m, pre, (B p).2, hval, hpre, hout, ?_, ?_, ?_, ?_, ?_, ?_⟩
  · intro cc hcc
    exact hbase cc (List.mem_append_left _ (List.mem_append_left _ (List.mem_append_left _
      (List.mem_append_left _ hcc))))
  · intro cc hcc
    exact hbase cc (List.mem_append_left _ (List.mem_append_left _ (List.mem_append_left _
      (List.mem_append_right _ hcc))))
  · intro cc hcc
    exact hbase cc (List.mem_append_left _ (List.mem_append_left _
      (List.mem_append_right _ hcc)))
  · intro cc hcc
    exact hbase cc (List.mem_append_left _ (List.mem_append_right _ hcc))
  · intro cc hcc
    exact hbase cc (List.mem_append_right _ hcc)
  · intro hdiag cc hcc
    apply satisfiesAll_mem hsat
    rw [hcons, if_pos hdiag]
    exact List.mem_append_right _ hcc

example : convert_to_numeric (Cell.chr 'A') = .ok 10 := by decide
example : convert_to_numeric (Cell.chr 'b') = .ok 11 := by decide
example : convert_to_numeric (Cell.int 7) = .ok 7 := by decide
example : encodeValue 10 = Cell.chr 'A' := by decide
example : validate_sudoku_input [[Cell.int 1, Cell.int 0], [Cell.int 0, Cell.int 0]] =
    .error (.valueError "Sudoku dimension 2x2 is invalid. The number of rows and columns must be a perfect square.") := by decide

/-! ### Classification of validator errors -/

theorem checkRectangular_error_shape {nc : Nat} :
    ∀ {idx : Nat} {l : List (List Cell)} {e : PyError},
      checkRectangular nc idx l = .error e → ∃ msg, e = .valueError msg := by
  intro idx l
  induction l generalizing idx with
  | nil => intro e h; cases h
  | cons row rest ih =>
    intro e h
    by_cases hlen : row.length = nc
    · rw [checkRectangular, if_neg (show ¬(row.length ≠ nc) by omega)] at h
      exact ih h
    · rw [checkRectangular, if_pos hlen] at h
      cases h
      exact ⟨_, rfl⟩

/-- Every failure of `validate_sudoku_input` is a `ValueError`, except
the `IndexError` from indexing an empty grid. -/
theorem validate_error_class {g : List (List Cell)} {e : PyError}
    (h : validate_sudoku_input g = .error e) :
    (∃ msg, e = .valueError msg) ∨ (∃ msg, e = .indexError msg) := by
  match g with
  | [] =>
    rw [validate_sudoku_input] at h
    cases h
    exact Or.inr ⟨_, rfl⟩
  | first :: rest =>
    rw [validate_sudoku_input] at h
    cases hrect : checkRectangular first.length 0 (first :: rest) with
    | error e2 =>
      rw [hrect] at h
      cases h
      exact Or.inl (checkRectangular_error_shape hrect)
    | ok u =>
      rw [hrect] at h
      by_cases hsq : (first :: rest).length = first.length
      · rw [if_neg (not_ne_iff.mpr hsq)] at h
        by_cases hm : floorSqrt (first :: rest).length * floorSqrt (first :: rest).length
            = (first :: rest).length
        · rw [if_neg (not_ne_iff.mpr hm)] at h
          cases hvals : checkValues (first :: rest) (first :: rest).length
              (rowMajorPairs (first :: rest).length) with
          | error e3 =>
            rw [hvals] at h
            cases h
            exact Or.inl (checkValues_error_shape hvals)
          | ok u2 => rw [hvals] at h; cases h
        · rw [if_pos hm] at h
          cases h
          exact Or.inl ⟨_, rfl⟩
      · rw [if_pos hsq] at h
        cases h
        exact Or.inl ⟨_, rfl⟩

theorem constInfeasibleBackend_sound : SoundBackend constInfeasibleBackend := by
  intro p h
  simp [constInfeasibleBackend] at h

/-! ## The claims -/

/-- C2: the value codec satisfies decode(encode(v)) = v for every v in
[1, 35]; encode of every v ≤ 9 renders as the decimal digit string for
v, and encode of every v in [10, 35] is the letter at position v - 9 of
the alphabet. -/
theorem claim_C2_codec_roundtrip : ∀ v : Nat, 1 ≤ v → v ≤ 35 →
    convert_to_numeric (encodeValue v) = .ok (v : Int) ∧
    (v ≤ 9 → pyStr (encodeValue v) = toString v) ∧
    (10 ≤ v → encodeValue v = Cell.chr (Char.ofNat (64 + (v - 9)))) := by
  decide

/-- Witness for C2 at the inputs 12 and 7. -/
theorem claim_C2_witness :
    (convert_to_numeric (encodeValue 12) = .ok (12 : Int) ∧
      (12 ≤ 9 → pyStr (encodeValue 12) = toString 12) ∧
      (10 ≤ 12 → encodeValue 12 = Cell.chr (Char.ofNat (64 + (12 - 9))))) ∧
    (convert_to_numeric (encodeValue 7) = .ok (7 : Int) ∧
      (7 ≤ 9 → pyStr (encodeValue 7) = toString 7) ∧
      (10 ≤ 7 → encodeValue 7 = Cell.chr (Char.ofNat (64 + (7 - 9))))) :=
  ⟨claim_C2_codec_roundtrip 12 (by decide) (by decide),
   claim_C2_codec_roundtrip 7 (by decide) (by decide)⟩

/-- C3 counterexample: the 4 by 5 grid and the 5 by 5 grid raise the
same exception class, `ValueError` — the code defines no `ShapeError`
or `DimensionError`, so the failure kinds are not distinct typed
errors. -/
theorem claim_C3_counterexample :
    raisedClass (validate_sudoku_input grid45) = some "ValueError" ∧
    raisedClass (validate_sudoku_input grid55) = some "ValueError" ∧
    raisedClass (validate_sudoku_input grid45) = raisedClass (validate_sudoku_input grid55) := by
  refine ⟨?_, ?_, ?_⟩ <;> decide

/-- C3 amended: every validation failure raises `ValueError` (the empty
grid raises `IndexError` from indexing `input_sudoku[0]`); the four
failure kinds are distinguished only by message.  A 4 by 5 grid and a
5 by 5 grid both raise `ValueError`, with different messages. -/
theorem claim_C3_amended :
    (∀ (g : List (List Cell)) (e : PyError), validate_sudoku_input g = .error e →
      (∃ msg, e = .valueError msg) ∨ (∃ msg, e = .indexError msg)) ∧
    raisedClass (validate_sudoku_input gridRagged) = some "ValueError" ∧
    raisedClass (validate_sudoku_input grid45) = some "ValueError" ∧
    raisedClass (validate_sudoku_input grid55) = some "ValueError" ∧
    raisedClass (validate_sudoku_input gridBadValue) = some "ValueError" ∧
    validate_sudoku_input grid45 ≠ validate_sudoku_input grid55 := by
  refine ⟨fun g e h => validate_error_class h, ?_, ?_, ?_, ?_, ?_⟩ <;> decide

/-- Witness for C3 at the 4 by 5 grid. -/
theorem claim_C3_witness :
    (∃ msg, (PyError.valueError "Sudoku grid is not square. Found 4 rows and 5 columns.")
        = PyError.valueError msg) ∨
    (∃ msg, (PyError.valueError "Sudoku grid is not square. Found 4 rows and 5 columns.")
        = PyError.indexError msg) :=
  claim_C3_amended.1 grid45 _ (by decide)

/-- C9 counterexample: on a 4 by 4 grid validate succeeds with the
three-component triple (4, 4, 2) = (n_rows, n_cols, m), not the
two-component pair (N, m) = (4, 2) that the claim states. -/
theorem claim_C9_counterexample :
    validate_sudoku_input grid4zeros = .ok (4, 4, 2) ∧
    tripleToList (4, 4, 2) ≠ [4, 2] := by
  refine ⟨?_, ?_⟩ <;> decide

/-- C9 amended: validate is a pure check (in this embedding a total
function that cannot modify the grid) and on success returns exactly
the triple (n_rows, n_cols, m), where n_rows = n_cols = the side length
and m is its exact square root. -/
theorem claim_C9_amended : ∀ (g : List (List Cell)) (n nc m : Nat),
    validate_sudoku_input g = .ok (n, nc, m) →
    n = g.length ∧ nc = g.length ∧ m * m = g.length ∧ m = floorSqrt g.length := by
  intro g n nc m h
  obtain ⟨h1, h2, h3, h4, _, _⟩ := validate_ok_spec h
  exact ⟨h1, by omega, by rw [← h1]; exact h4, by rw [← h1]; exact h3⟩

/-- Witness for C9 at the 4 by 4 zero grid. -/
theorem claim_C9_witness :
    4 = grid4zeros.length ∧ 4 = grid4zeros.length ∧
    2 * 2 = grid4zeros.length ∧ 2 = floorSqrt grid4zeros.length :=
  claim_C9_amended grid4zeros 4 4 2 (by decide)

/-- C10: solver never propagates an exception: for every backend, grid
and diagonal flag, it returns a grid exactly when its body reached an
Optimal status, and returns None exactly when the body raised
internally — the enclosing try/except turns every error into None. -/
theorem claim_C10_solver_total : ∀ (B : Backend) (g : List (List Cell)) (diagonal : Bool),
    (∃ out, solver B g diagonal = some out ∧ solverBody B g diagonal = .ok out ∧
      ∃ n p, sudokuProblem g diagonal = .ok (n, p) ∧ (B p).1 = Status.Optimal ∧
        out = extract_solution (B p).2 n) ∨
    (solver B g diagonal = none ∧ ∃ e, solverBody B g diagonal = .error e) := by
  intro B g diagonal
  cases hb : solverBody B g diagonal with
  | ok s =>
    left
    have hsolver : solver B g diagonal = some s := by rw [solver, hb]
    obtain ⟨n, p, hsp, hopt, hout⟩ := solver_some_spec hsolver
    exact ⟨s, hsolver, rfl, n, p, hsp, hopt, hout⟩
  | error e =>
    right
    exact ⟨by rw [solver, hb], e, rfl⟩

/-- C4: for every input, a non-Optimal backend status makes solver
return None; and with a sound backend, a grid holding the same nonzero
clue twice in one row yields None, never a wrong grid. -/
theorem claim_C4_non_optimal_none : ∀ (B : Backend) (g : List (List Cell)) (diagonal : Bool),
    (∀ n p, sudokuProblem g diagonal = .ok (n, p) → (B p).1 ≠ Status.Optimal →
      solver B g diagonal = none) ∧
    (SoundBackend B → ∀ r c1 c2, r < g.length → c1 < g.length → c2 < g.length →
      c1 ≠ c2 → cellAt g r c1 ≠ Cell.int 0 → cellAt g r c2 ≠ Cell.int 0 →
      convert_to_numeric (cellAt g r c1) = convert_to_numeric (cellAt g r c2) →
      solver B g diagonal = none) := by
  intro B g diagonal
  constructor
  · intro n p hsp hst
    exact solver_none_of_not_optimal hsp hst
  · intro hB r c1 c2 hr hc1 hc2 hne h01 h02 heq
    cases hres : solver B g diagonal with
    | none => rfl
    | some out =>
      exfalso
      obtain ⟨n, nc, m, pre, a, hval, hpre, hout, hcolcc, hrowcc, hcellcc, hboxcc, hprecc, _⟩ :=
        solved_core hB hres
      obtain ⟨hn_eq, _, _, _, _, _⟩ := validate_ok_spec hval
      subst hn_eq
      rw [prefilledConstraints] at hpre
      obtain ⟨v1, hv1, h11, h12, hm1⟩ := prefilledAux_mem hpre r c1
        (mem_rowMajorPairs.mpr ⟨hr, hc1⟩) h01
      obtain ⟨v2, hv2, h21, h22, hm2⟩ := prefilledAux_mem hpre r c2
        (mem_rowMajorPairs.mpr ⟨hr, hc2⟩) h02
      have hv12 : v1 = v2 := by
        rw [hv1, hv2] at heq
        injection heq
      subst hv12
      have ha1 : a r c1 v1.toNat = true := constraintHolds_single.mp (hprecc _ hm1)
      have ha2 : a r c2 v1.toNat = true := constraintHolds_single.mp (hprecc _ hm2)
      have hvmem : v1.toNat ∈ valuesList g.length := mem_valuesList.mpr (by omega)
      have hcount := row_value_count hrowcc hr hvmem
      have h2le := countP_two_le (p := fun c => a r c v1.toNat)
        (List.mem_range.mpr hc1) (List.mem_range.mpr hc2) hne ha1 ha2
      omega

/-- Witness for C4: the constant-infeasible backend and the grid with a
duplicated clue in its first row. -/
theorem claim_C4_witness : solver constInfeasibleBackend gridDupRow false = none :=
  (claim_C4_non_optimal_none constInfeasibleBackend gridDupRow false).2
    constInfeasibleBackend_sound 0 0 1 (by decide) (by decide) (by decide) (by decide)
    (by decide) (by decide) (by decide)

/-! ### Updating one cell of a validated grid -/

theorem setCell_length {g : List (List Cell)} {r c : Nat} {x : Cell} :
    (setCell g r c x).length = g.length := by
  rw [setCell, List.length_set]

theorem setCell_row_lengths {g : List (List Cell)} {n r c : Nat} {x : Cell}
    (hrows : ∀ row ∈ g, row.length = n) (hr : r < g.length) :
    ∀ row ∈ setCell g r c x, row.length = n := by
  intro row hrow
  rw [setCell] at hrow
  obtain ⟨i, hi, heq⟩ := List.mem_iff_getElem.mp hrow
  rw [List.length_set] at hi
  rw [List.getElem_set] at heq
  by_cases hir : r = i
  · rw [if_pos hir] at heq
    rw [← heq, List.length_set, List.getD_eq_getElem _ _ hr]
    exact hrows _ (List.getElem_mem _)
  · rw [if_neg hir] at heq
    rw [← heq]
    exact hrows _ (List.getElem_mem _)

theorem cellAt_setCell_same {g : List (List Cell)} {n r c : Nat} {x : Cell}
    (hrows : ∀ row ∈ g, row.length = n) (hg : g.length = n) (hr : r < n) (hc : c < n) :
    cellAt (setCell g r c x) r c = x := by
  have hrlen : r < g.length := by omega
  have hrowlen : (g.getD r []).length = n := by
    rw [List.getD_eq_getElem _ _ hrlen]
    exact hrows _ (List.getElem_mem _)
  have houter : (g.set r ((g.getD r []).set c x)).getD r [] = (g.getD r []).set c x := by
    rw [List.getD_eq_getElem _ _
      (show r < (g.set r ((g.getD r []).set c x)).length by rw [List.length_set]; omega)]
    rw [List.getElem_set, if_pos rfl]
  rw [cellAt, setCell, houter]
  rw [List.getD_eq_getElem _ _
    (show c < ((g.getD r []).set c x).length by rw [List.length_set]; omega)]
  rw [List.getElem_set, if_pos rfl]

theorem cellAt_setCell_other {g : List (List Cell)} {n r c i j : Nat} {x : Cell}
    (hrows : ∀ row ∈ g, row.length = n) (hg : g.length = n) (hr : r < n)
    (hi : i < n) (hj : j < n) (hne : ¬(i = r ∧ j = c)) :
    cellAt (setCell g r c x) i j = cellAt g i j := by
  have hrlen : r < g.length := by omega
  have hilen : i < g.length := by omega
  by_cases hir : i = r
  · subst hir
    have hrowlen : (g.getD i []).length = n := by
      rw [List.getD_eq_getElem _ _ hilen]
      exact hrows _ (List.getElem_mem _)
    have hjc : j ≠ c := fun h => hne ⟨rfl, h⟩
    have houter : (g.set i ((g.getD i []).set c x)).getD i [] = (g.getD i []).set c x := by
      rw [List.getD_eq_getElem _ _
        (show i < (g.set i ((g.getD i []).set c x)).length by rw [List.length_set]; omega)]
      rw [List.getElem_set, if_pos rfl]
    rw [cellAt, setCell, houter]
    rw [List.getD_eq_getElem _ _
      (show j < ((g.getD i []).set c x).length by rw [List.length_set]; omega)]
    rw [List.getElem_set, if_neg (by omega)]
    rw [cellAt]
    rw [List.getD_eq_getElem _ _ (show j < (g.getD i []).length by omega)]
  · have houter : (g.set r ((g.getD r []).set c x)).getD i [] = g.getD i [] := by
      rw [List.getD_eq_getElem _ _
        (show i < (g.set r ((g.getD r []).set c x)).length by rw [List.length_set]; omega)]
      rw [List.getElem_set, if_neg (by omega)]
      rw [List.getD_eq_getElem _ _ hilen]
    rw [cellAt, setCell, houter, cellAt]

/-- C7: the validator value-range check accepts a decoded value v
exactly when 0 ≤ v ≤ N with both bounds inclusive: on any validated
grid, overwriting any cell with the value N still validates, while N+1
and -1 each make validation fail with a ValueError. -/
theorem claim_C7_range_boundary : ∀ (g : List (List Cell)) (n nc m r c : Nat),
    validate_sudoku_input g = .ok (n, nc, m) → r < n → c < n →
    validate_sudoku_input (setCell g r c (Cell.int (n : Int))) = .ok (n, nc, m) ∧
    (∃ msg, validate_sudoku_input (setCell g r c (Cell.int ((n : Int) + 1)))
      = .error (.valueError msg)) ∧
    (∃ msg, validate_sudoku_input (setCell g r c (Cell.int (-1)))
      = .error (.valueError msg)) := by
  intro g n nc m r c hval hr hc
  obtain ⟨hn, hnc, hm, hmm, hrows, hcells⟩ := validate_ok_spec hval
  subst hn
  subst hnc
  subst hm
  have hglen : ∀ x : Cell, (setCell g r c x).length = g.length := fun _ => setCell_length
  have hgrows : ∀ x : Cell, ∀ row ∈ setCell g r c x, row.length = g.length :=
    fun x => setCell_row_lengths hrows (by omega)
  have hnonempty : ∀ x : Cell, setCell g r c x ≠ [] := by
    intro x hempty
    have hl := hglen x
    rw [hempty] at hl
    simp at hl
    omega
  have hvalrw : ∀ x : Cell, validate_sudoku_input (setCell g r c x) =
      match checkValues (setCell g r c x) g.length (rowMajorPairs g.length) with
      | .error e => .error e
      | .ok _ => .ok (g.length, g.length, floorSqrt g.length) := by
    intro x
    have h1 := validate_eq_of_shape (hnonempty x)
      (by intro row hrow; rw [hglen x]; exact hgrows x row hrow)
      (by rw [hglen x]; exact hmm)
    rw [hglen x] at h1
    exact h1
  have hbad : ∀ (x : Cell) (w : Int), convert_to_numeric x = .ok w →
      ¬(0 ≤ w ∧ w ≤ (g.length : Int)) →
      ∃ msg, validate_sudoku_input (setCell g r c x) = .error (.valueError msg) := by
    intro x w hw hnr
    have hnotok : checkValues (setCell g r c x) g.length (rowMajorPairs g.length)
        ≠ .ok () := by
      intro hok
      obtain ⟨v, hv, hb1, hb2⟩ := checkValues_ok_iff.mp hok (r, c)
        (mem_rowMajorPairs.mpr ⟨hr, hc⟩)
      rw [cellAt_setCell_same hrows rfl hr hc] at hv
      rw [hw] at hv
      injection hv with hvv
      exact hnr (by rw [hvv]; exact ⟨hb1, hb2⟩)
    cases hcv : checkValues (setCell g r c x) g.length (rowMajorPairs g.length) with
    | ok u => cases u; exact absurd hcv hnotok
    | error e =>
      obtain ⟨msg, hmsg⟩ := checkValues_error_shape hcv
      refine ⟨msg, ?_⟩
      rw [hvalrw x, hcv, hmsg]
  refine ⟨?_, ?_, ?_⟩
  · have hok : checkValues (setCell g r c (Cell.int (g.length : Int))) g.length
        (rowMajorPairs g.length) = .ok () := by
      apply checkValues_ok_iff.mpr
      intro pr hpr
      obtain ⟨hpr1, hpr2⟩ := mem_rowMajorPairs.mp hpr
      by_cases hsame : pr.1 = r ∧ pr.2 = c
      · refine ⟨(g.length : Int), ?_, by omega, by omega⟩
        rw [hsame.1, hsame.2, cellAt_setCell_same hrows rfl hr hc]
        rfl
      · rw [cellAt_setCell_other hrows rfl hr hpr1 hpr2 hsame]
        exact hcells pr.1 pr.2 hpr1 hpr2
    rw [hvalrw _, hok]
  · exact hbad (Cell.int ((g.length : Int) + 1)) _ rfl (by omega)
  · exact hbad (Cell.int (-1)) _ rfl (by omega)

/-- Witness for C7 on the solved 4 by 4 grid at cell (0, 0). -/
theorem claim_C7_witness :
    validate_sudoku_input (setCell solved4 0 0 (Cell.int ((4 : Nat) : Int))) = .ok (4, 4, 2) ∧
    (∃ msg, validate_sudoku_input (setCell solved4 0 0 (Cell.int (((4 : Nat) : Int) + 1)))
      = .error (.valueError msg)) ∧
    (∃ msg, validate_sudoku_input (setCell solved4 0 0 (Cell.int (-1)))
      = .error (.valueError msg)) :=
  claim_C7_range_boundary solved4 4 4 2 0 0 (by decide) (by decide) (by decide)

theorem checkingBackend_sound (a : Assignment) : SoundBackend (checkingBackend a) := by
  intro p hopt
  rw [checkingBackend] at hopt ⊢
  by_cases hs : satisfiesAll a p = true
  · rw [if_pos hs]
    exact hs
  · rw [if_neg hs] at hopt
    simp at hopt

/-- C1: with a sound backend, whenever solver reports an Optimal status
(returns a grid), the result is an N by N grid, every pre-filled
(nonzero) input cell decodes to the same value in the output, and every
row, column and m by m box of the output contains each value 1..N
exactly once, values being compared through the codec (N ≤ 35 keeps all
symbols inside the codec domain of the spec). -/
theorem claim_C1_solver_correct {B : Backend} {g : List (List Cell)} {diagonal : Bool}
    {out : List (List Cell)} (hB : SoundBackend B) (hn : g.length ≤ 35)
    (h : solver B g diagonal = some out) :
    (out.length = g.length ∧ ∀ row ∈ out, row.length = g.length) ∧
    (∀ r c, r < g.length → c < g.length → cellAt g r c ≠ Cell.int 0 →
      convert_to_numeric (cellAt out r c) = convert_to_numeric (cellAt g r c)) ∧
    (∀ r v, r < g.length → 1 ≤ v → v ≤ g.length →
      (out.getD r []).countP
        (fun cell => decide (convert_to_numeric cell = .ok (v : Int))) = 1) ∧
    (∀ c v, c < g.length → 1 ≤ v → v ≤ g.length →
      ((List.range g.length).map (fun r => cellAt out r c)).countP
        (fun cell => decide (convert_to_numeric cell = .ok (v : Int))) = 1) ∧
    (∀ gr gc v, gr < floorSqrt g.length → gc < floorSqrt g.length →
      1 ≤ v → v ≤ g.length →
      ((boxCellList (floorSqrt g.length) gr gc).map
        (fun rc => cellAt out rc.1 rc.2)).countP
        (fun cell => decide (convert_to_numeric cell = .ok (v : Int))) = 1) := by
  obtain ⟨n, nc, m, pre, a, hval, hpre, hout, hcolcc, hrowcc, hcellcc, hboxcc, hprecc, _⟩ :=
    solved_core hB h
  obtain ⟨hn_eq, hnc, hm, hmm, hrowsg, hcellsg⟩ := validate_ok_spec hval
  subst hn_eq
  subst hm
  subst hout
  refine ⟨⟨extract_solution_length, ?_⟩, ?_, ?_, ?_, ?_⟩
  · intro row hrow
    rw [extract_solution] at hrow
    obtain ⟨r, hrmem, hreq⟩ := List.mem_map.mp hrow
    rw [← hreq]
    simp
  · intro r c hr hc hne0
    rw [prefilledConstraints] at hpre
    obtain ⟨v, hconv, hv1, hv2, hcmem⟩ := prefilledAux_mem hpre r c
      (mem_rowMajorPairs.mpr ⟨hr, hc⟩) hne0
    have ha : a r c v.toNat = true := constraintHolds_single.mp (hprecc _ hcmem)
    obtain ⟨v0, hv0mem, hav0, huniq, hcell_eq⟩ :=
      extract_unique_val (cell_value_count hcellcc hr hc) hr hc
    have hvmem : v.toNat ∈ valuesList g.length := mem_valuesList.mpr (by omega)
    have hvv0 : v.toNat = v0 := huniq _ hvmem ha
    rw [hcell_eq, ← hvv0]
    rw [convert_encodeValue v.toNat (by omega) (by omega), hconv]
    congr 1
    omega
  · intro r v hr hv1 hv2
    have hvmem : v ∈ valuesList g.length := mem_valuesList.mpr ⟨hv1, hv2⟩
    have hrow_eq : (extract_solution a g.length).getD r [] =
        ((List.range g.length).map (fun c => (r, c))).map
          (fun rc => cellAt (extract_solution a g.length) rc.1 rc.2) := by
      rw [extract_solution_row hr, List.map_map]
      apply List.map_congr_left
      intro c hcmem
      exact (cellAt_extract hr (List.mem_range.mp hcmem)).symm
    rw [hrow_eq]
    apply decoded_count_one hcellcc hn hvmem
    · intro rc hrc
      obtain ⟨c, hcmem, hceq⟩ := List.mem_map.mp hrc
      rw [← hceq]
      exact ⟨hr, List.mem_range.mp hcmem⟩
    · rw [List.countP_map]
      exact row_value_count hrowcc hr hvmem
  · intro c v hc hv1 hv2
    have hvmem : v ∈ valuesList g.length := mem_valuesList.mpr ⟨hv1, hv2⟩
    have hcol_eq : (List.range g.length).map
        (fun r => cellAt (extract_solution a g.length) r c) =
        ((List.range g.length).map (fun r => (r, c))).map
          (fun rc => cellAt (extract_solution a g.length) rc.1 rc.2) := by
      rw [List.map_map]
      rfl
    rw [hcol_eq]
    apply decoded_count_one hcellcc hn hvmem
    · intro rc hrc
      obtain ⟨r, hrmem, hreq⟩ := List.mem_map.mp hrc
      rw [← hreq]
      exact ⟨List.mem_range.mp hrmem, hc⟩
    · rw [List.countP_map]
      exact col_value_count hcolcc hc hvmem
  · intro gr gc v hgr hgc hv1 hv2
    have hvmem : v ∈ valuesList g.length := mem_valuesList.mpr ⟨hv1, hv2⟩
    apply decoded_count_one hcellcc hn hvmem
    · intro rc hrc
      obtain ⟨i, hi, j, hj, hrc_eq⟩ := mem_boxCellList.mp hrc
      subst hrc_eq
      constructor
      · have h1 : gr * floorSqrt g.length + i < (gr + 1) * floorSqrt g.length := by
          rw [Nat.succ_mul]
          omega
        have h2 : (gr + 1) * floorSqrt g.length
            ≤ floorSqrt g.length * floorSqrt g.length :=
          Nat.mul_le_mul (by omega) (Nat.le_refl _)
        omega
      · have h1 : gc * floorSqrt g.length + j < (gc + 1) * floorSqrt g.length := by
          rw [Nat.succ_mul]
          omega
        have h2 : (gc + 1) * floorSqrt g.length
            ≤ floorSqrt g.length * floorSqrt g.length :=
          Nat.mul_le_mul (by omega) (Nat.le_refl _)
        omega
    · exact box_value_count hboxcc hgr hgc hvmem

/-- Witness for C1: a 4 by 4 puzzle with one blank cell, solved through
the checking backend loaded with the full solution. -/
theorem claim_C1_witness :
    solver (checkingBackend a4) puzzle4 false = some solved4 ∧
    ((solved4.length = puzzle4.length ∧ ∀ row ∈ solved4, row.length = puzzle4.length) ∧
    (∀ r c, r < puzzle4.length → c < puzzle4.length → cellAt puzzle4 r c ≠ Cell.int 0 →
      convert_to_numeric (cellAt solved4 r c) = convert_to_numeric (cellAt puzzle4 r c)) ∧
    (∀ r v, r < puzzle4.length → 1 ≤ v → v ≤ puzzle4.length →
      (solved4.getD r []).countP
        (fun cell => decide (convert_to_numeric cell = .ok (v : Int))) = 1) ∧
    (∀ c v, c < puzzle4.length → 1 ≤ v → v ≤ puzzle4.length →
      ((List.range puzzle4.length).map (fun r => cellAt solved4 r c)).countP
        (fun cell => decide (convert_to_numeric cell = .ok (v : Int))) = 1) ∧
    (∀ gr gc v, gr < floorSqrt puzzle4.length → gc < floorSqrt puzzle4.length →
      1 ≤ v → v ≤ puzzle4.length →
      ((boxCellList (floorSqrt puzzle4.length) gr gc).map
        (fun rc => cellAt solved4 rc.1 rc.2)).countP
        (fun cell => decide (convert_to_numeric cell = .ok (v : Int))) = 1)) :=
  ⟨by decide,
   @claim_C1_solver_correct (checkingBackend a4) puzzle4 false solved4
     (checkingBackend_sound a4) (by decide) (by decide)⟩

/-- C5: the diagonal family is in the model exactly when the flag is
set: with diagonal=true the assembled problem is the base constraints
followed by the diagonal family, with diagonal=false it is the base
alone; the diagonal family holds for an assignment exactly when every
value occurs exactly once among the N cells with row = col and exactly
once among the N cells with row + col = N - 1; and consequently every
solution a sound backend returns with diagonal=true carries each value
1..N exactly once on both main diagonals. -/
theorem claim_C5_diagonal :
    (∀ (g : List (List Cell)) (n : Nat) (p : Problem),
      sudokuProblem g true = .ok (n, p) →
      ∃ p0, sudokuProblem g false = .ok (n, p0) ∧
        p.constraints = p0.constraints ++ add_diagonal_sudoku_constraints n) ∧
    (∀ (n : Nat) (a : Assignment),
      (∀ cc ∈ add_diagonal_sudoku_constraints n, constraintHolds a cc = true) ↔
      (∀ v, 1 ≤ v → v ≤ n →
        (List.range n).countP (fun i => a i i v) = 1 ∧
        (List.range n).countP (fun i => a i (n - i - 1) v) = 1)) ∧
    (∀ (B : Backend) (g out : List (List Cell)), SoundBackend B → g.length ≤ 35 →
      solver B g true = some out →
      ∀ v, 1 ≤ v → v ≤ g.length →
        ((List.range g.length).map (fun i => cellAt out i i)).countP
          (fun cell => decide (convert_to_numeric cell = .ok (v : Int))) = 1 ∧
        ((List.range g.length).map (fun i => cellAt out i (g.length - i - 1))).countP
          (fun cell => decide (convert_to_numeric cell = .ok (v : Int))) = 1) := by
  refine ⟨?_, ?_, ?_⟩
  · intro g n p hsp
    cases hval : validate_sudoku_input g with
    | error e => rw [sudokuProblem, hval] at hsp; cases hsp
    | ok t =>
      rcases t with ⟨n', nc, m⟩
      rw [sudokuProblem] at hsp
      simp only [hval] at hsp
      cases hcre : create_sudoku_constraints n' m g with
      | error e => simp only [hcre] at hsp; cases hsp
      | ok cons =>
        simp only [hcre] at hsp
        injection hsp with h1
        injection h1 with hn hp
        subst hn
        refine ⟨{ constraints := cons }, ?_, ?_⟩
        · rw [sudokuProblem]
          simp only [hval, hcre]
          rfl
        · rw [← hp]
          simp
  · intro n a
    rw [add_diagonal_sudoku_constraints]
    constructor
    · intro hall v hv1 hv2
      have hvmem : v ∈ valuesList n := mem_valuesList.mpr ⟨hv1, hv2⟩
      constructor
      · exact constraintHolds_map.mp
          (hall _ (List.mem_append_left _ (List.mem_map.mpr ⟨v, hvmem, rfl⟩)))
      · exact constraintHolds_map.mp
          (hall _ (List.mem_append_right _ (List.mem_map.mpr ⟨v, hvmem, rfl⟩)))
    · intro hcounts cc hcc
      rcases List.mem_append.mp hcc with hcc1 | hcc2
      · obtain ⟨v, hvmem, hveq⟩ := List.mem_map.mp hcc1
        obtain ⟨hv1, hv2⟩ := mem_valuesList.mp hvmem
        rw [← hveq]
        exact constraintHolds_map.mpr (hcounts v hv1 hv2).1
      · obtain ⟨v, hvmem, hveq⟩ := List.mem_map.mp hcc2
        obtain ⟨hv1, hv2⟩ := mem_valuesList.mp hvmem
        rw [← hveq]
        exact constraintHolds_map.mpr (hcounts v hv1 hv2).2
  · intro B g out hB hn hs
    obtain ⟨n, nc, m, pre, a, hval, hpre, hout, hcolcc, hrowcc, hcellcc, hboxcc, hprecc,
      hdiagcc⟩ := solved_core hB hs
    obtain ⟨hn_eq, _, _, _, _, _⟩ := validate_ok_spec hval
    subst hn_eq
    subst hout
    have hdc := hdiagcc rfl
    intro v hv1 hv2
    have hvmem : v ∈ valuesList g.length := mem_valuesList.mpr ⟨hv1, hv2⟩
    constructor
    · have heq : (List.range g.length).map
          (fun i => cellAt (extract_solution a g.length) i i) =
          ((List.range g.length).map (fun i => (i, i))).map
            (fun rc => cellAt (extract_solution a g.length) rc.1 rc.2) := by
        rw [List.map_map]
        rfl
      rw [heq]
      apply decoded_count_one hcellcc hn hvmem
      · intro rc hrc
        obtain ⟨i, hi, hieq⟩ := List.mem_map.mp hrc
        rw [← hieq]
        exact ⟨List.mem_range.mp hi, List.mem_range.mp hi⟩
      · rw [List.countP_map]
        exact diag1_value_count hdc hvmem
    · have heq : (List.range g.length).map
          (fun i => cellAt (extract_solution a g.length) i (g.length - i - 1)) =
          ((List.range g.length).map (fun i => (i, g.length - i - 1))).map
            (fun rc => cellAt (extract_solution a g.length) rc.1 rc.2) := by
        rw [List.map_map]
        rfl
      rw [heq]
      apply decoded_count_one hcellcc hn hvmem
      · intro rc hrc
        obtain ⟨i, hi, hieq⟩ := List.mem_map.mp hrc
        rw [← hieq]
        have hilt := List.mem_range.mp hi
        exact ⟨hilt, by omega⟩
      · rw [List.countP_map]
        exact diag2_value_count hdc hvmem

/-- Witness for C5: the solved 4 by 4 grid, which is also a valid
Sudoku X, solved with diagonal=true through the checking backend. -/
theorem claim_C5_witness :
    ((List.range solved4.length).map (fun i => cellAt solved4 i i)).countP
      (fun cell => decide (convert_to_numeric cell = .ok ((3 : Nat) : Int))) = 1 ∧
    ((List.range solved4.length).map
      (fun i => cellAt solved4 i (solved4.length - i - 1))).countP
      (fun cell => decide (convert_to_numeric cell = .ok ((3 : Nat) : Int))) = 1 :=
  claim_C5_diagonal.2.2 (checkingBackend a4) solved4 solved4
    (checkingBackend_sound a4) (by decide) (by decide) 3 (by decide) (by decide)

/-- C6 amended: with a sound backend, feeding solver a fully filled
numeric grid returns, when it succeeds, the same grid up to the output
symbol encoding: every cell of the result is the re-encoding of the
input value (values above 9 come back as letters), and for side length
at most 9 — covering m in {2, 3} — the returned grid is literally equal
to the input. -/
theorem claim_C6_amended {B : Backend} {g out : List (List Cell)}
    (hB : SoundBackend B)
    (hfull : ∀ r, r < g.length → ∀ c, c < g.length → nonzeroInt (cellAt g r c) = true)
    (hs : solver B g false = some out) :
    (∀ r c, r < g.length → c < g.length →
      ∃ v : Int, cellAt g r c = Cell.int v ∧ cellAt out r c = encodeValue v.toNat) ∧
    (g.length ≤ 9 → out = g) := by
  obtain ⟨n, nc, m, pre, a, hval, hpre, hout, hcolcc, hrowcc, hcellcc, hboxcc, hprecc, _⟩ :=
    solved_core hB hs
  obtain ⟨hn_eq, hnc2, hm2, hmm, hrowsg, hcellsg⟩ := validate_ok_spec hval
  subst hn_eq
  subst hout
  rw [prefilledConstraints] at hpre
  have key : ∀ r c, r < g.length → c < g.length →
      ∃ v : Int, 1 ≤ v ∧ v ≤ (g.length : Int) ∧ cellAt g r c = Cell.int v ∧
        cellAt (extract_solution a g.length) r c = encodeValue v.toNat := by
    intro r c hr hc
    have hnz := hfull r hr c hc
    obtain ⟨w, hw, hw0, hwn⟩ := hcellsg r c hr hc
    cases hcellform : cellAt g r c with
    | chr ch =>
      rw [hcellform] at hnz
      simp [nonzeroInt] at hnz
    | int v =>
      rw [hcellform] at hnz hw
      have hvne : v ≠ 0 := by simpa [nonzeroInt] using hnz
      simp [convert_to_numeric] at hw
      have hbounds : 1 ≤ v ∧ v ≤ (g.length : Int) := by omega
      have hne0 : cellAt g r c ≠ Cell.int 0 := by
        rw [hcellform]
        intro hcon
        injection hcon with h0
        exact hvne h0
      obtain ⟨v2, hconv, hv1b, hv2b, hcmem⟩ := prefilledAux_mem hpre r c
        (mem_rowMajorPairs.mpr ⟨hr, hc⟩) hne0
      rw [hcellform] at hconv
      simp [convert_to_numeric] at hconv
      have hv2v : v2 = v := by omega
      have ha : a r c v.toNat = true := by
        have hsingle := constraintHolds_single.mp (hprecc _ hcmem)
        rwa [hv2v] at hsingle
      obtain ⟨v0, hv0mem, hav0, huniq, hcell_eq⟩ :=
        extract_unique_val (cell_value_count hcellcc hr hc) hr hc
      have hvv0 : v.toNat = v0 :=
        huniq _ (mem_valuesList.mpr (by omega)) ha
      exact ⟨v, hbounds.1, hbounds.2, rfl, by rw [hcell_eq, ← hvv0]⟩
  constructor
  · intro r c hr hc
    obtain ⟨v, _, _, hcell, hextract⟩ := key r c hr hc
    exact ⟨v, hcell, hextract⟩
  · intro h9
    apply List.ext_getElem extract_solution_length
    intro r hr1 hr2
    have hr : r < g.length := hr2
    have hrow_out : (extract_solution a g.length)[r] =
        (extract_solution a g.length).getD r [] := (List.getD_eq_getElem _ _ hr1).symm
    have hrow_g : g[r] = g.getD r [] := (List.getD_eq_getElem _ _ hr2).symm
    rw [hrow_out, hrow_g, extract_solution_row hr]
    have hglen_row : (g.getD r []).length = g.length := by
      rw [List.getD_eq_getElem _ _ hr2]
      exact hrowsg _ (List.getElem_mem _)
    apply List.ext_getElem
      (by rw [List.length_map, List.length_range]; exact hglen_row.symm)
    intro c hc1 hc2
    have hc : c < g.length := by
      rw [List.length_map, List.length_range] at hc1
      exact hc1
    obtain ⟨v, hv1, hvn, hcell, hextract⟩ := key r c hr hc
    have hmain : cellAt (extract_solution a g.length) r c = cellAt g r c := by
      rw [hextract, hcell, encodeValue_le_nine _ (by omega)]
      congr 1
      omega
    rw [List.getElem_map, List.getElem_range, ← cellAt_extract hr hc, hmain, cellAt]
    rw [List.getD_eq_getElem _ _ (show c < (g.getD r []).length by omega)]

set_option maxHeartbeats 4000000 in
/-- C6 counterexample: on a fully solved numeric 16 by 16 grid, a sound
backend run succeeds, but the returned grid re-encodes every value
above 9 as a letter, so the output is not equal to the input grid. -/
theorem claim_C6_counterexample :
    SoundBackend (checkingBackend a16) ∧
    solver (checkingBackend a16) grid16 false = some out16 ∧
    out16 ≠ grid16 :=
  ⟨checkingBackend_sound a16, by decide, by decide⟩

/-- Witness for C6 on the solved 4 by 4 grid (all values at most 9, so
the output equals the input literally). -/
theorem claim_C6_witness :
    (∀ r c, r < solved4.length → c < solved4.length →
      ∃ v : Int, cellAt solved4 r c = Cell.int v ∧
        cellAt solved4 r c = encodeValue v.toNat) ∧
    (solved4.length ≤ 9 → solved4 = solved4) :=
  @claim_C6_amended (checkingBackend a4) solved4 solved4 (checkingBackend_sound a4)
    (by decide) (by decide)

/-! ### Invariants of the batch reader -/

theorem decodeTokens_ok_length :
    ∀ {l : List Cell} {vals : List Int}, decodeTokens l = .ok vals →
      vals.length = l.length := by
  intro l
  induction l with
  | nil => intro vals h; injection h with h1; rw [← h1]; rfl
  | cons t rest ih =>
    intro vals h
    rw [decodeTokens] at h
    cases hconv : convert_to_numeric t with
    | error e => rw [hconv] at h; cases h
    | ok v =>
      rw [hconv] at h
      cases hrest : decodeTokens rest with
      | error e => rw [hrest] at h; cases h
      | ok vs =>
        rw [hrest] at h
        injection h with h1
        rw [← h1, List.length_cons, ih hrest, List.length_cons]

theorem parseRow_ok_spec {l : Line} {dim : Nat} {vals : List Int}
    (h : parseRow l dim = .ok vals) :
    vals.length = dim ∧ ∀ v ∈ vals, 0 ≤ v ∧ v ≤ (dim : Int) := by
  rw [parseRow] at h
  by_cases hlen : l.length = dim
  · rw [if_neg (show ¬(l.length ≠ dim) by omega)] at h
    cases hdec : decodeTokens l with
    | error e => simp only [hdec] at h; cases h
    | ok vals2 =>
      simp only [hdec] at h
      by_cases hall : vals2.all (fun v => decide (0 ≤ v) && decide (v ≤ (dim : Int))) = true
      · rw [if_pos hall] at h
        injection h with h1
        subst h1
        refine ⟨by rw [decodeTokens_ok_length hdec, hlen], ?_⟩
        intro v hv
        have := List.all_eq_true.mp hall v hv
        simp at this
        exact this
      · rw [if_neg hall] at h; cases h
  · rw [if_pos hlen] at h; cases h

theorem readRows_ok_spec {lines : List Line} {dim : Nat} :
    ∀ {k pos : Nat} {rows : List (List Int)} {pos2 : Nat},
      readRows lines dim pos k = (.ok rows, pos2) →
      rows.length = k ∧ ∀ row ∈ rows, row.length = dim ∧
        ∀ v ∈ row, 0 ≤ v ∧ v ≤ (dim : Int) := by
  intro k
  induction k with
  | zero =>
    intro pos rows pos2 h
    rw [readRows] at h
    rw [Prod.mk.injEq] at h
    obtain ⟨h1, _⟩ := h
    injection h1 with h2
    rw [← h2]
    exact ⟨rfl, by intro row hrow; cases hrow⟩
  | succ k ih =>
    intro pos rows pos2 h
    rw [readRows] at h
    cases hrow : parseRow (readLineAt lines pos) dim with
    | error e =>
      rw [hrow] at h
      rw [Prod.mk.injEq] at h
      obtain ⟨h1, _⟩ := h
      cases h1
    | ok row =>
      rw [hrow] at h
      cases hrest : readRows lines dim (pos + 1) k with
      | mk res pos3 =>
        cases res with
        | error e =>
          rw [hrest] at h
          rw [Prod.mk.injEq] at h
          obtain ⟨h1, _⟩ := h
          cases h1
        | ok rows2 =>
          rw [hrest] at h
          rw [Prod.mk.injEq] at h
          obtain ⟨h1, _⟩ := h
          injection h1 with h2
          obtain ⟨hlen, hrows⟩ := ih hrest
          obtain ⟨hrlen, hrvals⟩ := parseRow_ok_spec hrow
          rw [← h2]
          refine ⟨by rw [List.length_cons, hlen], ?_⟩
          intro row2 hmem
          rcases List.mem_cons.mp hmem with rfl | hmem2
          · exact ⟨hrlen, hrvals⟩
          · exact hrows row2 hmem2

theorem readOnePuzzle_ok_spec {lines : List Line} {pos : Nat} {s : List (List Int)}
    {flag : Bool} {pos2 : Nat}
    (h : readOnePuzzle lines pos = (.ok (s, flag), pos2)) : wfPuzzle s := by
  rw [readOnePuzzle] at h
  cases hh : parseHeader (readLineAt lines pos) with
  | error e =>
    rw [hh] at h
    rw [Prod.mk.injEq] at h
    obtain ⟨h1, _⟩ := h
    cases h1
  | ok df =>
    rcases df with ⟨dim, flag2⟩
    simp only [hh] at h
    by_cases hneg : dim < 0
    · rw [if_pos hneg] at h
      rw [Prod.mk.injEq] at h
      obtain ⟨h1, _⟩ := h
      cases h1
    · rw [if_neg hneg] at h
      by_cases hsq : floorSqrt dim.toNat * floorSqrt dim.toNat = dim.toNat
      · rw [if_neg (show ¬(floorSqrt dim.toNat * floorSqrt dim.toNat ≠ dim.toNat)
          by omega)] at h
        cases hrr : readRows lines dim.toNat (pos + 1) dim.toNat with
        | mk res pos3 =>
          cases res with
          | error e =>
            rw [hrr] at h
            rw [Prod.mk.injEq] at h
            obtain ⟨h1, _⟩ := h
            cases h1
          | ok rows =>
            rw [hrr] at h
            rw [Prod.mk.injEq] at h
            obtain ⟨h1, _⟩ := h
            injection h1 with h2
            obtain ⟨hlen, hrows⟩ := readRows_ok_spec hrr
            have hs : s = rows := by
              have := congrArg Prod.fst h2
              exact this.symm
            subst hs
            refine ⟨by rw [hlen]; exact hsq, ?_⟩
            intro row hrow
            obtain ⟨hrlen, hrvals⟩ := hrows row hrow
            rw [hlen]
            exact ⟨hrlen, hrvals⟩
      · rw [if_pos hsq] at h
        rw [Prod.mk.injEq] at h
        obtain ⟨h1, _⟩ := h
        cases h1

theorem readLoop_spec {lines : List Line} :
    ∀ {k pos : Nat} {acc1 : List (List (List Int))} {acc2 : List Bool},
      (∀ s ∈ acc1, wfPuzzle s) → acc1.length = acc2.length →
      (readLoop lines k pos acc1 acc2).1.length = (readLoop lines k pos acc1 acc2).2.length ∧
      ∀ s ∈ (readLoop lines k pos acc1 acc2).1, wfPuzzle s := by
  intro k
  induction k with
  | zero =>
    intro pos acc1 acc2 hwf hlen
    rw [readLoop]
    refine ⟨by simp [hlen], ?_⟩
    intro s hs
    rw [List.mem_reverse] at hs
    exact hwf s hs
  | succ k ih =>
    intro pos acc1 acc2 hwf hlen
    rw [readLoop]
    cases hro : readOnePuzzle lines pos with
    | mk res pos2 =>
      cases res with
      | error e => exact ih hwf hlen
      | ok sf =>
        rcases sf with ⟨s, f⟩
        apply ih
        · intro s2 hs2
          rcases List.mem_cons.mp hs2 with rfl | hs3
          · exact readOnePuzzle_ok_spec hro
          · exact hwf s2 hs3
        · simp [hlen]

/-- C8 counterexample: in a two-puzzle stream whose first puzzle fails
validation in its first grid row, the reader catches the error and
continues, but it does not resynchronize the stream, so the valid
second puzzle is misparsed and lost: the batch returns no puzzles at
all, even though the identical second puzzle parses cleanly on its
own. -/
theorem claim_C8_counterexample :
    read_sudokus_from_file badBatch = ([], []) ∧
    read_sudokus_from_file soloBatch = ([solved4Int], [false]) := by
  refine ⟨?_, ?_⟩ <;> decide

/-- C8 amended: a validation or parse failure on one puzzle is caught
and the loop continues with the remaining iterations (one bad puzzle
never aborts the batch), and every puzzle that is returned is well
formed with its diagonal flag aligned; but the stream position is not
resynchronized after a failure, so puzzles after a bad one may be
misparsed and dropped rather than read correctly. -/
theorem claim_C8_amended : ∀ lines : List Line,
    (read_sudokus_from_file lines).1.length = (read_sudokus_from_file lines).2.length ∧
    ∀ s ∈ (read_sudokus_from_file lines).1, wfPuzzle s := by
  intro lines
  rw [read_sudokus_from_file]
  cases hnum : pyIntLine (readLineAt lines 0) with
  | error e => exact ⟨rfl, by intro s hs; cases hs⟩
  | ok num =>
    exact readLoop_spec (by intro s hs; cases hs) rfl

/-- Witness for C8 on the single-puzzle stream. -/
theorem claim_C8_witness :
    (read_sudokus_from_file soloBatch).1.length
      = (read_sudokus_from_file soloBatch).2.length ∧
    wfPuzzle solved4Int :=
  ⟨(claim_C8_amended soloBatch).1,
   (claim_C8_amended soloBatch).2 solved4Int (by decide)⟩
